import Mathlib

/-!
Verification of the trading bot's core numeric and state-machine logic.

Python floats are modelled as exact rationals (`ℚ`); Python's `round`
(banker's rounding) is modelled by `roundHalfEven`/`roundq`; Python sets are
modelled by `Finset`/deduplicated sorted lists; the MetaTrader5 broker is
modelled as an explicit environment (symbol info, ticks, and a list of
responses consumed by successive `order_send` calls).
-/

namespace TradingBot

/-- Python's built-in `round` on an exact rational: round to the nearest
integer, ties to the even integer (banker's rounding). -/
def roundHalfEven (x : ℚ) : ℤ :=
  let f := ⌊x⌋
  if x - f < 1/2 then f
  else if x - f > 1/2 then f + 1
  else if f % 2 = 0 then f else f + 1

/-- Python's `round(x, d)` for a nonnegative digit count `d`. -/
def roundq (x : ℚ) (d : ℕ) : ℚ :=
  (roundHalfEven (x * 10 ^ d) : ℚ) / 10 ^ d

/-- One OHLC bar (`open`, `high`, `low`, `close` of the Python data frames). -/
structure Bar where
  op : ℚ
  hi : ℚ
  lo : ℚ
  cl : ℚ
deriving DecidableEq

/-- Embedding of `swing_strategy._is_rejection_wick(df, direction, body_wick_ratio)`:
looks at the latest bar; requires positive high-low range; for direction
`"bull"` the bottom wick must be at least `1.5 / max(1.0, ratio)` body
lengths while the top wick stays within one body length (mirrored
otherwise). -/
def isRejectionWick (df : List Bar) (direction : String) (ratio : ℚ) : Bool :=
  match df.getLast? with
  | none => false
  | some c =>
    let body := |c.cl - c.op|
    let full := c.hi - c.lo
    if full ≤ 0 then false
    else
      let wickTop := c.hi - max c.op c.cl
      let wickBot := min c.op c.cl - c.lo
      if direction = "bull" then
        decide (wickBot ≥ body * (3/2 / max 1 ratio)) && decide (wickTop ≤ body * 1)
      else
        decide (wickTop ≥ body * (3/2 / max 1 ratio)) && decide (wickBot ≤ body * 1)

/-- The wick test as the specification sentence words it (threshold
`1.5 / ratio` with no clamping of the ratio); used to compare spec against
code. -/
def specRejectionWick (df : List Bar) (direction : String) (ratio : ℚ) : Bool :=
  match df.getLast? with
  | none => false
  | some c =>
    let body := |c.cl - c.op|
    let full := c.hi - c.lo
    if full ≤ 0 then false
    else
      let wickTop := c.hi - max c.op c.cl
      let wickBot := min c.op c.cl - c.lo
      if direction = "bull" then
        decide (wickBot ≥ body * (3/2 / ratio)) && decide (wickTop ≤ body)
      else
        decide (wickTop ≥ body * (3/2 / ratio)) && decide (wickBot ≤ body)

/-- Python `x or default` applied to a possibly-missing float attribute:
a missing attribute or a zero value falls back to the default. -/
def orFloat (x : Option ℚ) (d : ℚ) : ℚ :=
  match x with
  | none => d
  | some v => if v = 0 then d else v

/-- Embedding of `zones._symbol_pip`: 0.01 for symbols mentioning JPY,
0.0001 otherwise. -/
def symbolPip (symbol : String) : ℚ :=
  if (symbol.toUpper.splitOn "JPY").length > 1 then 1/100 else 1/10000

/-- Arithmetic mean of a list (`np.mean`). -/
def listMean (l : List ℚ) : ℚ := l.sum / l.length

/-- The greedy grouping pass of `zones._cluster_levels`: walk the sorted
levels, adding a level to the current cluster when it is within `tol` of the
cluster's running mean, otherwise emitting the mean and starting a new
cluster. -/
def clusterGo (tol : ℚ) (cur : List ℚ) : List ℚ → List ℚ
  | [] => [listMean cur]
  | lv :: rest =>
    if |lv - listMean cur| ≤ tol then clusterGo tol (cur ++ [lv]) rest
    else listMean cur :: clusterGo tol [lv] rest

/-- Rounding precision chosen in `_cluster_levels`: 6 decimals when the pip
is below 0.0005, else 4. -/
def clusterPrec (pip : ℚ) : ℕ := if pip < 1/2000 then 6 else 4

/-- Python `sorted({...})` over rationals: the ascending enumeration of the
distinct values. -/
def sortedDistinct (l : List ℚ) : List ℚ := l.toFinset.sort (· ≤ ·)

/-- Embedding of `zones._cluster_levels(levels, pip, cluster_tol_multiplier,
max_levels)`: sort, greedily cluster within `tol = max(1e-8, pip*mult)`,
round cluster means, deduplicate and sort; when more than `max_levels`
survive, keep the ones with the highest count of raw levels within `tol`
(ties toward lower price first in the sort key `(-count, price)`). -/
def clusterLevels (levels : List ℚ) (pip : ℚ) (multTol : ℚ) (maxLevels : ℕ) :
    List ℚ :=
  if levels = [] then []
  else
    let tol := max (1/100000000) (pip * multTol)
    match levels.insertionSort (· ≤ ·) with
    | [] => []
    | h0 :: t =>
      let clusters := clusterGo tol [h0] t
      let prec := clusterPrec pip
      let rounded := sortedDistinct (clusters.map (fun x => roundq x prec))
      if rounded.length ≤ maxLevels then rounded
      else
        let sig := rounded.map
          (fun r => (r, (levels.filter (fun v => |v - r| ≤ tol)).length))
        let sigSorted :=
          sig.insertionSort (fun a b => b.2 < a.2 ∨ (b.2 = a.2 ∧ a.1 ≤ b.1))
        ((sigSorted.take maxLevels).map Prod.fst).insertionSort (· ≤ ·)

/-- Maximum of a list with a fallback for the empty case (`series.max()`
over a nonempty window). -/
def listMax : List ℚ → ℚ
  | [] => 0
  | x :: xs => xs.foldl max x

/-- Minimum of a list with a fallback for the empty case. -/
def listMin : List ℚ → ℚ
  | [] => 0
  | x :: xs => xs.foldl min x

/-- Embedding of `zones._local_extrema(series, order)`: indices whose value
equals the max (resp. min) of the symmetric window of radius `order`. -/
def localExtrema (s : List ℚ) (order : ℕ) : List ℕ × List ℕ :=
  let n := s.length
  if n < order * 2 + 1 then ([], [])
  else
    let idxs := (List.range n).filter (fun i => order ≤ i ∧ i < n - order)
    let window := fun i => (s.drop (i - order)).take (2 * order + 1)
    (idxs.filter (fun i => s.getD i 0 = listMax (window i)),
     idxs.filter (fun i => s.getD i 0 = listMin (window i)))

/-- `series.nlargest(n).unique()`: the distinct values among the `n`
largest entries, in descending order. -/
def nlargestUnique (l : List ℚ) (n : ℕ) : List ℚ :=
  ((l.insertionSort (fun a b => b ≤ a)).take n).dedup

/-- `series.nsmallest(n).unique()`: the distinct values among the `n`
smallest entries, in ascending order. -/
def nsmallestUnique (l : List ℚ) (n : ℕ) : List ℚ :=
  ((l.insertionSort (· ≤ ·)).take n).dedup

/-- Embedding of `zones.compute_zones_from_tf` with its default
`days_limit=None` (no recency filter; `fetch_rates` is modelled by passing
the bar series directly): local extrema of highs/lows plus the 12 highest
highs and 12 lowest lows, clustered with multiplier 8 and cap 60, returned
ascending. Empty or short data yields the empty list. -/
def computeZonesFromTf (symbol : String) (df : List Bar) : List ℚ :=
  if df = [] then []
  else if df.length < 5 then []
  else
    let highs := df.map Bar.hi
    let lows := df.map Bar.lo
    let hIdx := (localExtrema highs 3).1
    let lIdx := (localExtrema lows 3).2
    let levels := hIdx.map (fun i => highs.getD i 0) ++
      lIdx.map (fun i => lows.getD i 0) ++
      (nlargestUnique highs 12 ++ nsmallestUnique lows 12)
    let clustered := clusterLevels levels (symbolPip symbol) 8 60
    clustered.insertionSort (· ≤ ·)

/-- Embedding of `zones.compute_zones_for_symbol`: zones of each timeframe's
bar series are merged, re-clustered with cap `keep_top*3`, ranked by how
many raw levels fall within tolerance (ties toward higher price), and the
top `keep_top` are returned sorted descending (highest first). -/
def computeZonesForSymbol (symbol : String) (dfs : List (List Bar))
    (keepTop : ℕ) : List ℚ :=
  let allLevels := (dfs.map (fun df => computeZonesFromTf symbol df)).flatten
  let pip := symbolPip symbol
  let merged := clusterLevels allLevels pip 8 (keepTop * 3)
  if merged = [] then []
  else
    let tol := pip * 8
    let significance := merged.map
      (fun m => (m, (allLevels.filter (fun v => |v - m| ≤ tol)).length))
    let sigSorted := significance.insertionSort
      (fun a b => b.2 < a.2 ∨ (b.2 = a.2 ∧ b.1 ≤ a.1))
    let top := (sigSorted.take keepTop).map (fun p => roundq p.1 6)
    top.insertionSort (fun a b => b ≤ a)

/-- Embedding of `risk.pip_size`. -/
def pipSizeRisk (symbol : String) : ℚ :=
  if symbol.endsWith "JPY" then 1/100
  else if symbol.startsWith "XAU" then 1/10
  else 1/10000

/-- Python `max(0, int(round(-math.log10(step))))` for a positive rational
step, computed exactly: the least `n` with `step^2 * 10^(2n+1) > 1`
(equivalently `-log10 step < n + 1/2`; a tie would need `step` to be an
irrational power of ten, impossible over `ℚ`). -/
def stepDecGo (s2 : ℚ) : ℕ → ℕ → ℕ
  | 0, n => n
  | fuel + 1, n => if 1 < s2 * 10 ^ (2 * n + 1) then n else stepDecGo s2 fuel (n + 1)

/-- Decimal precision of a volume step, as `risk.compute_lots` derives it
from `-log10`. -/
def stepDecimals (step : ℚ) : ℕ := stepDecGo (step * step) (step.den + 2) 0

/-- Symbol constraints consumed by `risk.compute_lots`; `none` models a
missing attribute (the `getattr` default applies). -/
structure SymbolInfoRisk where
  tradeTickValue : Option ℚ
  tradeTickSize : Option ℚ
  tradeContractSize : Option ℚ
  volumeStep : Option ℚ
  volumeMin : Option ℚ
  volumeMax : Option ℚ
deriving DecidableEq

/-- Sizing configuration (`config.py` values used by `compute_lots`). -/
structure RiskConfig where
  positionModeFixed : Bool
  lotsFixed : ℚ
  riskPct : ℚ
  maxRiskPerTradePct : ℚ
  fatFingerMaxLots : ℚ
deriving DecidableEq

/-- The raw volume picked by `compute_lots` before venue normalization:
the fixed lot in FIXED mode, else the risk-budget formula
`risk_amount / (stop_pips * value_per_pip) / contract_size`. -/
def rawLots (cfg : RiskConfig) (symbol : String) (info : SymbolInfoRisk)
    (entry sl equity : ℚ) : ℚ :=
  if cfg.positionModeFixed then cfg.lotsFixed
  else
    let stopPips := max (1/1000000000) (|entry - sl| / pipSizeRisk symbol)
    let tickValue := orFloat info.tradeTickValue 1
    let tickSize := orFloat info.tradeTickSize (pipSizeRisk symbol)
    let valuePerPip := tickValue * (pipSizeRisk symbol / tickSize)
    let riskAmount := equity * min cfg.riskPct cfg.maxRiskPerTradePct
    riskAmount / (stopPips * valuePerPip) / (info.tradeContractSize.getD 1)

/-- Embedding of `risk.compute_lots`: raw risk-based (or fixed) volume,
floored to the venue step, clamped to `[volume_min, min(volume_max,
FAT_FINGER_MAX_LOTS)]`, and rounded to the step's decimal precision. -/
def computeLots (cfg : RiskConfig) (symbol : String) (info : SymbolInfoRisk)
    (entry sl equity : ℚ) : ℚ :=
  let lots₀ := rawLots cfg symbol info entry sl equity
  let lotStep := orFloat info.volumeStep (1/100)
  let minLot := orFloat info.volumeMin (1/100)
  let maxLot := min (orFloat info.volumeMax 100) cfg.fatFingerMaxLots
  let lots₁ := if 0 < lotStep then (⌊max 0 lots₀ / lotStep⌋ : ℚ) * lotStep else lots₀
  let lots₂ := max minLot (min maxLot lots₁)
  let dec := if 0 < lotStep then stepDecimals lotStep else 2
  roundq lots₂ dec

/-- The output volume is a whole multiple of the venue step (`x / step` is
an integer). -/
def isStepMultiple (x step : ℚ) : Prop := (x / step).den = 1

instance (x step : ℚ) : Decidable (isStepMultiple x step) :=
  inferInstanceAs (Decidable ((x / step).den = 1))

/-- Gate thresholds used by `risk.risk_gates_ok`. -/
structure GatesConfig where
  maxDrawdownPct : ℚ
  maxDailyLossPct : ℚ
  consecutiveLossLimit : ℕ
deriving DecidableEq

/-- The daily-loss gate of `risk_gates_ok`: trips when today's PnL is
negative and its magnitude reaches `balance * MAX_DAILY_LOSS_PCT`
(`none` models the exception path, where the gate is skipped). -/
def dailyLossTrip (cfg : GatesConfig) (balance : ℚ) : Option ℚ → Bool
  | none => false
  | some pnl => decide (pnl < 0) && decide (balance * cfg.maxDailyLossPct ≤ |pnl|)

/-- The consecutive-loss gate of `risk_gates_ok`: trips when today's
trailing losing-close count reaches `CONSECUTIVE_LOSS_LIMIT` (`none`
models the exception path, where the gate is skipped). -/
def consecutiveLossTrip (cfg : GatesConfig) : Option ℕ → Bool
  | none => false
  | some c => decide (cfg.consecutiveLossLimit ≤ c)

/-- Embedding of `risk.risk_gates_ok`. `dailyPnl`/`consLosses` are the
values read from logs and journal. -/
def riskGatesOk (cfg : GatesConfig) (equityStart balance equity : ℚ)
    (dailyPnl : Option ℚ) (consLosses : Option ℕ) : Bool :=
  let dd := (equityStart - equity) / max (1/1000000000) equityStart
  if cfg.maxDrawdownPct ≤ dd then false
  else if dailyLossTrip cfg balance dailyPnl then false
  else if consecutiveLossTrip cfg consLosses then false
  else true

/-- Python `max(0, -int(math.floor(math.log10(step))))` for `0 < step < 1`:
the least `n` with `step * 10^n ≥ 1`. -/
def negFloorLog10Go (step : ℚ) : ℕ → ℕ → ℕ
  | 0, n => n
  | fuel + 1, n => if 1 ≤ step * 10 ^ n then n else negFloorLog10Go step fuel (n + 1)

/-- Negated floor of `log10` for a step below one, used by
`trade._round_volume_to_step` to pick a rounding precision. -/
def negFloorLog10 (step : ℚ) : ℕ := negFloorLog10Go step (step.den + 2) 0

/-- Embedding of `trade._round_volume_to_step(vol, vol_min, vol_max,
vol_step)`: clamp, floor to a whole number of steps above `vol_min`, and
round to `prec + 2` decimals. -/
def roundVolumeToStep (vol volMin volMax volStep : ℚ) : ℚ :=
  if volStep ≤ 0 then max (min vol volMax) volMin
  else
    let v := max volMin (min vol volMax)
    let steps := ⌊(v - volMin) / volStep⌋
    let volAdj₀ := volMin + (steps : ℚ) * volStep
    let volAdj := if volAdj₀ < volMin then volMin else volAdj₀
    let prec := if volStep < 1 then negFloorLog10 volStep else 0
    roundq volAdj (prec + 2)

/-- MT5 order filling modes tried by the fallback loop, in source order
IOC, FOK, RETURN. -/
inductive FillMode
  | ioc
  | fok
  | ret
deriving DecidableEq

/-- Result object of `mt5.order_send` (fields read by `place_trade`). -/
structure OrderResult where
  retcode : ℤ
  comment : String
  deal : ℕ
  order : ℕ
deriving DecidableEq

/-- The request dict built by `trade.build_order_request` (fields relevant
to the model; `action`, `deviation`, `magic`, `type_time` are constants). -/
structure OrderRequest where
  symbol : String
  volume : ℚ
  isBuy : Bool
  price : ℚ
  sl : ℚ
  tp : ℚ
  filling : Option FillMode
deriving DecidableEq

/-- The `TradePlan` dataclass of `trade.py`. -/
structure Plan where
  symbol : String
  direction : String
  entryPrice : ℚ
  sl : ℚ
  tp : ℚ
  lots : ℚ
  tfEntry : String
  score : ℚ
  comment : String
deriving DecidableEq

/-- Symbol info fields read by `place_trade`. -/
structure SymbolInfoTrade where
  tradeAllowed : Bool
  volumeMin : Option ℚ
  volumeMax : Option ℚ
  volumeStep : Option ℚ
deriving DecidableEq

/-- Environment of one `place_trade` call: configuration toggles, the
symbol info and tick snapshots, and which filling-mode constants the mt5
module exposes. -/
structure TradeEnv where
  notifyOnly : Bool
  tradeEnabled : Bool
  fatFingerMaxLots : ℚ
  si : Option SymbolInfoTrade
  tick : Option (ℚ × ℚ)
  hasIOC : Bool
  hasFOK : Bool
  hasRET : Bool
deriving DecidableEq

/-- Direction strings treated as buys by `build_order_request`. -/
def isBuyDir (d : String) : Bool :=
  d.toLower = "long" || d.toLower = "buy" || d.toLower = "bull"

/-- Embedding of `trade.build_order_request`; `none` models the
`RuntimeError` raised when no tick is available. -/
def buildOrderRequest (env : TradeEnv) (plan : Plan) (volumeOverride : Option ℚ)
    (typeFilling : Option FillMode) : Option OrderRequest :=
  match env.tick with
  | none => none
  | some (bid, ask) =>
    let buy := isBuyDir plan.direction
    some { symbol := plan.symbol
           volume := volumeOverride.getD plan.lots
           isBuy := buy
           price := if buy then ask else bid
           sl := plan.sl
           tp := plan.tp
           filling := typeFilling }

/-- `place_trade._is_success`: retcode 0, `TRADE_RETCODE_DONE` (10009) or
the vendor quirk 10009 — i.e. retcode 0 or 10009. -/
def isSuccessRes : Option OrderResult → Bool
  | none => false
  | some r => r.retcode = 0 || r.retcode = 10009

/-- The rejection comment mentions a filling problem (`"unsupported
filling" in comment.lower() or "filling" in comment.lower()`, which reduces
to the latter test). -/
def mentionsFilling (c : String) : Bool :=
  (c.toLower.splitOn "filling").length > 1

/-- A rejection attributable to an unsupported filling mode: retcode 10030
or a comment mentioning filling. -/
def isUnsupportedFilling (r : OrderResult) : Bool :=
  r.retcode = 10030 || mentionsFilling r.comment

/-- `trade._extract_ticket_from_result`: `int(deal or order or 0)`. -/
def extractTicket (r : OrderResult) : ℕ :=
  if r.deal ≠ 0 then r.deal else if r.order ≠ 0 then r.order else 0

/-- The alternate filling modes available in the environment, in source
order (the `dict.fromkeys` dedup is a no-op on distinct constants). -/
def fillingCandidates (env : TradeEnv) : List FillMode :=
  (if env.hasIOC then [FillMode.ioc] else []) ++
    (if env.hasFOK then [FillMode.fok] else []) ++
    (if env.hasRET then [FillMode.ret] else [])

/-- The broker's response to the `i`-th `order_send` of a `place_trade`
call; an exhausted or `None` entry models `order_send` raising or returning
`None`. -/
def brokerAt (broker : List (Option OrderResult)) (i : ℕ) : Option OrderResult :=
  (broker.get? i).join

/-- The fallback loop of `place_trade`: try each remaining filling mode
once; stop with the ticket on success; stop with `none` on a rejection not
attributable to filling; keep trying on unsupported-filling rejections or
missing results. Returns the outcome and the accumulated submissions. -/
def fallbackLoop (env : TradeEnv) (plan : Plan) (volOk : ℚ)
    (broker : List (Option OrderResult)) :
    List FillMode → ℕ → List OrderRequest → Option ℕ × List OrderRequest
  | [], _, subs => (none, subs)
  | fm :: rest, idx, subs =>
    match buildOrderRequest env plan (some volOk) (some fm) with
    | none => fallbackLoop env plan volOk broker rest idx subs
    | some req =>
      let subs' := subs ++ [req]
      match brokerAt broker idx with
      | none => fallbackLoop env plan volOk broker rest (idx + 1) subs'
      | some r2 =>
        if isSuccessRes (some r2) then (some (extractTicket r2), subs')
        else if isUnsupportedFilling r2 then
          fallbackLoop env plan volOk broker rest (idx + 1) subs'
        else (none, subs')

/-- Embedding of `trade.place_trade`: validation, the default-filling
submission, then the filling-mode fallback loop. Returns the ticket (or
`none`) and the list of order submissions performed. -/
def placeTrade (env : TradeEnv) (plan : Plan)
    (broker : List (Option OrderResult)) : Option ℕ × List OrderRequest :=
  if env.notifyOnly || !env.tradeEnabled then (none, [])
  else if env.fatFingerMaxLots < plan.lots then (none, [])
  else
    match env.si with
    | none => (none, [])
    | some si =>
      if !si.tradeAllowed then (none, [])
      else
        let volMin := orFloat si.volumeMin (1/100)
        let volMax := orFloat si.volumeMax (max plan.lots 100)
        let volStep := orFloat si.volumeStep (1/100)
        let volOk := roundVolumeToStep plan.lots volMin volMax volStep
        if volOk < volMin ∨ volMax < volOk then (none, [])
        else
          match buildOrderRequest env plan (some volOk) none with
          | none => (none, [])
          | some req =>
            let subs := [req]
            match brokerAt broker 0 with
            | some r =>
              if isSuccessRes (some r) then (some (extractTicket r), subs)
              else if isUnsupportedFilling r then
                fallbackLoop env plan volOk broker (fillingCandidates env) 1 subs
              else (none, subs)
            | none => fallbackLoop env plan volOk broker (fillingCandidates env) 1 subs

/-- A permissive environment for exercising `place_trade`'s retry logic:
trading enabled, a tradable symbol with standard volume constraints, a
live tick, and all three filling-mode constants present. -/
def c2Env : TradeEnv :=
  ⟨false, true, 5, some ⟨true, some (1/100), some 100, some (1/100)⟩,
    some (1, 11/10), true, true, true⟩

/-- A minimal valid long plan for the retry scenarios. -/
def c2Plan : Plan := ⟨"EURUSD", "long", 11/10, 1, 2, 1/100, "M5", 0, ""⟩

/-- One open position as `manage_open_positions` observes it, together with
the external snapshots used while handling it: the tick (absent ⇒ the
position is skipped), the symbol-info volume fields read by the partial-TP
branch, and whether the broker accepts the partial-close order. -/
structure PositionInput where
  ticket : ℕ
  isSell : Bool
  priceOpen : ℚ
  slRaw : ℚ
  tpRaw : ℚ
  volume : ℚ
  tick : Option (ℚ × ℚ)
  siVolumeMin : Option ℚ
  siVolumeStep : Option ℚ
  partialCloseOk : Bool
deriving DecidableEq

/-- Configuration switches of `manage_open_positions` (`config.py`). -/
structure ManageConfig where
  useTrailingGlobal : Bool
  breakevenRR : ℚ
  partialTpEnabled : Bool
  partialTpPercent : ℚ
  partialTpRR : ℚ
  partialTpMinLot : ℚ
deriving DecidableEq

/-- The module-level one-shot state of `trade.py`:
`_breakeven_set_tickets` and `_partial_closed_tickets`. -/
structure ManageState where
  beTickets : Finset ℕ
  partialTickets : Finset ℕ
deriving DecidableEq

/-- Orders issued by `manage_open_positions`, tagged by the branch that
produced them. -/
inductive ManageAction
  | breakevenSet (position : ℕ) (sl : ℚ) (tp : Option ℚ)
  | partialClose (position : ℕ) (volume : ℚ) (price : ℚ)
  | trailingSet (position : ℕ) (sl : ℚ) (tp : Option ℚ)
deriving DecidableEq

/-- Python `sl or -1e9` where `sl` is the optional stop. -/
def slOrNegBig (sl : Option ℚ) : ℚ :=
  match sl with
  | none => -1000000000
  | some s => if s = 0 then -1000000000 else s

/-- Python `sl or 1e9`. -/
def slOrPosBig (sl : Option ℚ) : ℚ :=
  match sl with
  | none => 1000000000
  | some s => if s = 0 then 1000000000 else s

/-- The breakeven one-shot block of `manage_open_positions`: fires only
when trailing is on, `rr` has reached `BREAKEVEN_RR`, the ticket is not in
`_breakeven_set_tickets`, and moving the stop to entry would tighten it. -/
def breakevenStep (cfg : ManageConfig) (useTrailing : Bool) (st : ManageState)
    (ticket : ℕ) (isSell : Bool) (entry : ℚ) (sl tp : Option ℚ)
    (risk rr : ℚ) : ManageState × List ManageAction :=
  if cfg.useTrailingGlobal ∧ useTrailing ∧ 0 < risk ∧ cfg.breakevenRR ≤ rr then
    if ticket ∉ st.beTickets then
      if !isSell then
        if (match sl with
            | none => true
            | some s => decide (s < entry - 1/1000000000)) then
          ({ st with beTickets := insert ticket st.beTickets },
           [ManageAction.breakevenSet ticket entry tp])
        else (st, [])
      else
        if (match sl with
            | none => true
            | some s => decide (entry + 1/1000000000 < s)) then
          ({ st with beTickets := insert ticket st.beTickets },
           [ManageAction.breakevenSet ticket entry tp])
        else (st, [])
    else (st, [])
  else (st, [])

/-- The partial take-profit one-shot block of `manage_open_positions`: the
close order is sent when the rounded partial volume is valid; the ticket
joins `_partial_closed_tickets` only when the broker accepted it. -/
def partialStep (cfg : ManageConfig) (st : ManageState) (ticket : ℕ)
    (isSell : Bool) (bid ask vol : ℚ) (siVolumeMin siVolumeStep : Option ℚ)
    (closeOk : Bool) (risk rr : ℚ) : ManageState × List ManageAction :=
  if cfg.partialTpEnabled ∧ 0 < risk ∧ cfg.partialTpRR ≤ rr
      ∧ ticket ∉ st.partialTickets then
    let pVolMin := orFloat siVolumeMin cfg.partialTpMinLot
    let pVolStep := orFloat siVolumeStep (1/100)
    let percent := max 0 (min 100 cfg.partialTpPercent)
    let partialVol := roundVolumeToStep (vol * (percent / 100)) pVolMin vol pVolStep
    if pVolMin ≤ partialVol ∧ partialVol < vol - 1/1000000000 then
      let priceClose := if !isSell then bid else ask
      (if closeOk then { st with partialTickets := insert ticket st.partialTickets }
       else st,
       [ManageAction.partialClose ticket partialVol priceClose])
    else (st, [])
  else (st, [])

/-- The trailing block of `manage_open_positions`: for a buy move the stop
up to `max(sl or -1e9, price - mult*risk)`, for a sell down to
`min(sl or 1e9, price + mult*risk)`, and only send a modification on a
non-trivial change. -/
def trailingActs (cfg : ManageConfig) (useTrailing : Bool)
    (trailingRMult : ℚ) (ticket : ℕ) (isSell : Bool) (price entry : ℚ)
    (sl tp : Option ℚ) (risk : ℚ) : List ManageAction :=
  if useTrailing ∧ 0 < risk ∧ cfg.useTrailingGlobal then
    (if !isSell ∧ trailingRMult * risk ≤ price - entry then
      let newSl := max (slOrNegBig sl) (price - trailingRMult * risk)
      match sl with
      | none => [ManageAction.trailingSet ticket newSl tp]
      | some s =>
        if 1/100000000 < |newSl - s| then [ManageAction.trailingSet ticket newSl tp]
        else []
    else []) ++
    (if isSell ∧ trailingRMult * risk ≤ entry - price then
      let newSl := min (slOrPosBig sl) (price + trailingRMult * risk)
      match sl with
      | none => [ManageAction.trailingSet ticket newSl tp]
      | some s =>
        if 1/100000000 < |newSl - s| then [ManageAction.trailingSet ticket newSl tp]
        else []
    else [])
  else []

/-- Handling of a single open position inside the `manage_open_positions`
loop: compute the locals (`price`, `entry`, `sl`, `tp`, `risk`, `rr`), then
run the breakeven one-shot, partial take-profit one-shot, and trailing
blocks. Returns the updated one-shot state and the orders sent for this
position; a missing tick skips the position. -/
def processPosition (cfg : ManageConfig) (useTrailing : Bool)
    (trailingRMult : ℚ) (st : ManageState) (p : PositionInput) :
    ManageState × List ManageAction :=
  match p.tick with
  | none => (st, [])
  | some (bid, ask) =>
    let price := if p.isSell then bid else ask
    let entry := p.priceOpen
    let sl : Option ℚ := if p.slRaw ≠ 0 then some p.slRaw else none
    let tp : Option ℚ := if p.tpRaw ≠ 0 then some p.tpRaw else none
    let risk : ℚ := match sl with | none => 0 | some s => |entry - s|
    let rr : ℚ :=
      if 0 < risk then
        if p.isSell then (entry - price) / risk else (price - entry) / risk
      else 0
    let r₁ := breakevenStep cfg useTrailing st p.ticket p.isSell entry sl tp risk rr
    let r₂ := partialStep cfg r₁.1 p.ticket p.isSell bid ask p.volume
      p.siVolumeMin p.siVolumeStep p.partialCloseOk risk rr
    let a₃ := trailingActs cfg useTrailing trailingRMult p.ticket p.isSell
      price entry sl tp risk
    (r₂.1, r₁.2 ++ r₂.2 ++ a₃)

/-- One cycle of `manage_open_positions`: run the per-position handler over
the open-position list in order, threading the one-shot state. -/
def manageOpenPositions (cfg : ManageConfig) (useTrailing : Bool)
    (trailingRMult : ℚ) (st : ManageState) :
    List PositionInput → ManageState × List ManageAction
  | [] => (st, [])
  | p :: ps =>
    let r := processPosition cfg useTrailing trailingRMult st p
    let rest := manageOpenPositions cfg useTrailing trailingRMult r.1 ps
    (rest.1, r.2 ++ rest.2)

/-- A whole run: successive cycles of `manage_open_positions`, each over
that cycle's open-position snapshot. -/
def runManage (cfg : ManageConfig) (useTrailing : Bool) (trailingRMult : ℚ) :
    ManageState → List (List PositionInput) → ManageState × List ManageAction
  | st, [] => (st, [])
  | st, c :: cs =>
    let r₁ := manageOpenPositions cfg useTrailing trailingRMult st c
    let r₂ := runManage cfg useTrailing trailingRMult r₁.1 cs
    (r₂.1, r₁.2 ++ r₂.2)

/-- Whether an action is a breakeven stop modification for ticket `t`. -/
def isBreakevenFor (t : ℕ) : ManageAction → Bool
  | ManageAction.breakevenSet pos _ _ => pos = t
  | _ => false

/-- Number of breakeven stop modifications issued for a given ticket. -/
def countBreakeven (t : ℕ) (acts : List ManageAction) : ℕ :=
  (acts.filter (isBreakevenFor t)).length

/-- Executor configuration (`config.py` values used by `executor.py`). -/
structure ExecConfig where
  startupProtectionCycles : ℕ
  cooldownSeconds : ℚ
deriving DecidableEq

/-- The module-level per-instrument dictionaries of `executor.py`
(`_bars_seen`, `_started`, `_last_signal`, `_last_open_time`,
`_journal_logged_signature`); `dict.get` defaults are the functions'
values at fresh keys. -/
structure ExecState where
  barsSeen : String → ℕ
  started : String → Bool
  lastSignal : String → Bool
  lastOpenTime : String → ℚ
  journalSig : String → Option (String × String × ℚ)

/-- The normalized plan signature
`f"{plan.symbol}|{plan.direction}|{round(plan.entry_price, 5)}"`, modelled
as the triple of its components. -/
def planSignature (p : Plan) : String × String × ℚ :=
  (p.symbol, p.direction, roundq p.entryPrice 5)

/-- Embedding of `executor.tick_symbol`. -/
def tickSymbol (cfg : ExecConfig) (s : String) (st : ExecState) : ExecState :=
  let c := st.barsSeen s + 1
  let st₁ := { st with barsSeen := Function.update st.barsSeen s c }
  if cfg.startupProtectionCycles < c then
    { st₁ with started := Function.update st₁.started s true }
  else st₁

/-- Embedding of `executor.clear_signal`. -/
def clearSignal (s : String) (st : ExecState) : ExecState :=
  { st with lastSignal := Function.update st.lastSignal s false }

/-- The skip reasons `execute_plan` can log (`reason_no_open`). -/
inductive SkipReason
  | startupProtection
  | noSignal
  | noRisingEdge
  | existingPosition
  | cooldown
deriving DecidableEq

/-- External observations of one `execute_plan` call: the open-position
check, the wall clock, and the value `place_trade` would return. -/
structure ExecEnv where
  hasOpenTrade : Bool
  now : ℚ
  placeResult : Option ℕ
deriving DecidableEq

/-- Observable outcome of one `execute_plan` call. -/
structure ExecOutcome where
  ticket : Option ℕ
  attempted : Bool
  reason : Option SkipReason
  journalWritten : Bool
deriving DecidableEq

/-- Python truthiness of the optional ticket (`if ticket:`): `None` and 0
are falsy. -/
def ticketTruthy : Option ℕ → Bool
  | none => false
  | some t => t ≠ 0

/-- Embedding of `executor.execute_plan` for a non-`None` plan: admission
checks in source order (startup protection, rising edge, open-position cap,
cooldown), the optional `place_trade` attempt, the journal write with its
repeated-signature suppression, and the unconditional raising of the
last-signal flag. -/
def executePlan (cfg : ExecConfig) (env : ExecEnv) (plan : Plan)
    (st : ExecState) : ExecState × ExecOutcome :=
  let symbol := plan.symbol
  let r : Bool × Option SkipReason :=
    if !st.started symbol then (false, some SkipReason.startupProtection)
    else if st.lastSignal symbol then (false, some SkipReason.noRisingEdge)
    else if env.hasOpenTrade then (false, some SkipReason.existingPosition)
    else if env.now - st.lastOpenTime symbol < cfg.cooldownSeconds then
      (false, some SkipReason.cooldown)
    else (true, none)
  let willAttempt := r.1
  let ticket := if willAttempt then env.placeResult else none
  let st₁ :=
    if willAttempt ∧ ticketTruthy ticket then
      { st with lastOpenTime := Function.update st.lastOpenTime symbol env.now }
    else st
  let sig := planSignature plan
  let shouldWrite := ticketTruthy ticket || decide (st₁.journalSig symbol ≠ some sig)
  let st₂ :=
    if shouldWrite then
      { st₁ with journalSig := Function.update st₁.journalSig symbol (some sig) }
    else st₁
  let st₃ := { st₂ with lastSignal := Function.update st₂.lastSignal symbol true }
  (st₃, { ticket := ticket, attempted := willAttempt, reason := r.2,
          journalWritten := shouldWrite })

/-- The per-instrument slice of `main.trading_loop` state:
`_last_plan_signature` plus the executor state. -/
structure MainState where
  lastPlanSig : String → Option (String × String × ℚ)
  es : ExecState

/-- Observable outcome of one per-symbol iteration of the trading loop. -/
structure CycleOutcome where
  executed : Bool
  attempts : ℕ
  outcome : Option ExecOutcome
deriving DecidableEq

/-- One per-symbol iteration of `main.trading_loop`: `tick_symbol`, then
either `clear_signal` (no plan), the duplicate-signature skip, or
`execute_plan` with `_last_plan_signature` updated only on a truthy
ticket. -/
def cycleSymbol (cfg : ExecConfig) (s : String) (planOpt : Option Plan)
    (env : ExecEnv) (ms : MainState) : MainState × CycleOutcome :=
  let es₁ := tickSymbol cfg s ms.es
  match planOpt with
  | none =>
    ({ ms with es := clearSignal s es₁ },
     { executed := false, attempts := 0, outcome := none })
  | some plan =>
    let sig := planSignature plan
    if ms.lastPlanSig s = some sig then
      ({ ms with es := es₁ },
       { executed := false, attempts := 0, outcome := none })
    else
      let r := executePlan cfg env plan es₁
      let lps :=
        if ticketTruthy r.2.ticket then Function.update ms.lastPlanSig s (some sig)
        else ms.lastPlanSig
      ({ lastPlanSig := lps, es := r.1 },
       { executed := true, attempts := if r.2.attempted then 1 else 0,
         outcome := some r.2 })

/-- Boolean test that each consecutive pair of list elements is separated
by strictly more than `tol`. -/
def sepBy (tol : ℚ) : List ℚ → Bool
  | [] => true
  | [_] => true
  | x :: y :: t => decide (tol < y - x) && sepBy tol (y :: t)

/-- A five-bar series with constant high 10 and lows 1,1,1,1,5: enough bars
for zone computation, producing the distinct levels 1, 5 and 10. -/
def c8Df : List Bar :=
  [Bar.mk 0 10 1 0, Bar.mk 0 10 1 0, Bar.mk 0 10 1 0, Bar.mk 0 10 1 0,
   Bar.mk 0 10 5 0]

theorem roundHalfEven_intCast (z : ℤ) : roundHalfEven (z : ℚ) = z := by
  simp [roundHalfEven]

theorem roundq_eq_self {x : ℚ} {d : ℕ} (h : ∃ z : ℤ, x * 10 ^ d = (z : ℚ)) :
    roundq x d = x := by
  obtain ⟨z, hz⟩ := h
  have h10 : ((10 : ℚ) ^ d) ≠ 0 := by positivity
  rw [roundq, hz, roundHalfEven_intCast, ← hz]
  field_simp

theorem roundq_mul_pow_int (x : ℚ) (d d' : ℕ) (h : d ≤ d') :
    ∃ z : ℤ, roundq x d * 10 ^ d' = (z : ℚ) := by
  refine ⟨roundHalfEven (x * 10 ^ d) * 10 ^ (d' - d), ?_⟩
  have h10 : ((10 : ℚ) ^ d) ≠ 0 := by positivity
  have : (10 : ℚ) ^ d' = 10 ^ d * 10 ^ (d' - d) := by
    rw [← pow_add]
    congr 1
    omega
  rw [roundq, this]
  push_cast
  field_simp
  ring

theorem roundq_roundq (x : ℚ) (d d' : ℕ) (h : d ≤ d') :
    roundq (roundq x d) d' = roundq x d :=
  roundq_eq_self (roundq_mul_pow_int x d d' h)

theorem slOrNegBig_some {s : ℚ} (h : s ≠ 0) : slOrNegBig (some s) = s := by
  simp [slOrNegBig, h]

theorem slOrPosBig_some {s : ℚ} (h : s ≠ 0) : slOrPosBig (some s) = s := by
  simp [slOrPosBig, h]

theorem mem_breakevenStep_snd {a : ManageAction} {cfg : ManageConfig}
    {useTrailing : Bool} {st : ManageState} {ticket : ℕ} {isSell : Bool}
    {entry : ℚ} {sl tp : Option ℚ} {risk rr : ℚ}
    (h : a ∈ (breakevenStep cfg useTrailing st ticket isSell entry sl tp risk rr).2) :
    a = ManageAction.breakevenSet ticket entry tp := by
  rw [breakevenStep.eq_def] at h
  repeat' split at h
  all_goals (first
    | exact absurd h (List.not_mem_nil _)
    | (rw [List.mem_singleton] at h; exact h))

theorem mem_partialStep_snd {a : ManageAction} {cfg : ManageConfig}
    {st : ManageState} {ticket : ℕ} {isSell : Bool} {bid ask vol : ℚ}
    {siVolumeMin siVolumeStep : Option ℚ} {closeOk : Bool} {risk rr : ℚ}
    (h : a ∈ (partialStep cfg st ticket isSell bid ask vol siVolumeMin
      siVolumeStep closeOk risk rr).2) :
    ∃ v pr, a = ManageAction.partialClose ticket v pr := by
  rw [partialStep.eq_def] at h
  split at h
  next =>
    dsimp only at h
    split at h
    next =>
      rw [List.mem_singleton] at h
      exact ⟨_, _, h⟩
    next => exact absurd h (List.not_mem_nil _)
  next => exact absurd h (List.not_mem_nil _)

theorem trailingActs_risk_nonpos {cfg : ManageConfig} {useTrailing : Bool}
    {trailingRMult : ℚ} {ticket : ℕ} {isSell : Bool} {price entry : ℚ}
    {sl tp : Option ℚ} {risk : ℚ} (h : ¬0 < risk) :
    trailingActs cfg useTrailing trailingRMult ticket isSell price entry sl tp
      risk = [] := by
  rw [trailingActs]
  simp [h]

theorem mem_trailingActs_some {cfg : ManageConfig} {useTrailing : Bool}
    {trailingRMult : ℚ} {ticket a : ℕ} {isSell : Bool} {price entry s : ℚ}
    {tp : Option ℚ} {risk n : ℚ} {tpv : Option ℚ} (hs : s ≠ 0)
    (h : ManageAction.trailingSet a n tpv ∈
      trailingActs cfg useTrailing trailingRMult ticket isSell price entry
        (some s) tp risk) :
    (if isSell then n ≤ s else s ≤ n) ∧ 1/100000000 < |n - s| := by
  simp only [trailingActs, slOrNegBig_some hs, slOrPosBig_some hs] at h
  split at h
  next hcond =>
    rw [List.mem_append] at h
    rcases h with h | h
    · split at h
      next hbuy =>
        split at h
        next hmove =>
          simp only [List.mem_singleton, ManageAction.trailingSet.injEq] at h
          obtain ⟨-, hn, -⟩ := h
          subst hn
          have hsell : isSell = false := by
            cases hsb : isSell
            · rfl
            · rw [hsb] at hbuy
              simp at hbuy
          rw [hsell]
          exact ⟨by exact le_max_left _ _, by simpa using hmove⟩
        next => exact absurd h (List.not_mem_nil _)
      next => exact absurd h (List.not_mem_nil _)
    · split at h
      next hsellc =>
        split at h
        next hmove =>
          simp only [List.mem_singleton, ManageAction.trailingSet.injEq] at h
          obtain ⟨-, hn, -⟩ := h
          subst hn
          rw [hsellc.1]
          exact ⟨by exact min_le_left _ _, by simpa using hmove⟩
        next => exact absurd h (List.not_mem_nil _)
      next => exact absurd h (List.not_mem_nil _)
  next => exact absurd h (List.not_mem_nil _)

theorem mem_trailingActs_snd {a : ManageAction} {cfg : ManageConfig}
    {useTrailing : Bool} {trailingRMult : ℚ} {ticket : ℕ} {isSell : Bool}
    {price entry : ℚ} {sl tp : Option ℚ} {risk : ℚ}
    (h : a ∈ trailingActs cfg useTrailing trailingRMult ticket isSell price
      entry sl tp risk) :
    ∃ n tpq, a = ManageAction.trailingSet ticket n tpq := by
  rw [trailingActs.eq_def] at h
  repeat' split at h
  all_goals (first
    | exact absurd h (List.not_mem_nil _)
    | (rw [List.mem_append] at h
       rcases h with h | h <;>
         (try dsimp only at h
          repeat' split at h
          all_goals (first
            | exact absurd h (List.not_mem_nil _)
            | (rw [List.mem_singleton] at h; exact ⟨_, _, h⟩)))))

theorem countBreakeven_append (t : ℕ) (l₁ l₂ : List ManageAction) :
    countBreakeven t (l₁ ++ l₂) = countBreakeven t l₁ + countBreakeven t l₂ := by
  simp [countBreakeven, List.filter_append]

theorem countBreakeven_eq_zero {t : ℕ} {l : List ManageAction}
    (h : ∀ a ∈ l, isBreakevenFor t a = false) : countBreakeven t l = 0 := by
  rw [countBreakeven, List.length_eq_zero, List.filter_eq_nil_iff]
  intro a ha
  simp [h a ha]

theorem breakevenStep_cases (cfg : ManageConfig) (useTrailing : Bool)
    (st : ManageState) (ticket : ℕ) (isSell : Bool) (entry : ℚ)
    (sl tp : Option ℚ) (risk rr : ℚ) :
    breakevenStep cfg useTrailing st ticket isSell entry sl tp risk rr =
        (st, []) ∨
      (ticket ∉ st.beTickets ∧
        breakevenStep cfg useTrailing st ticket isSell entry sl tp risk rr =
          ({ st with beTickets := insert ticket st.beTickets },
           [ManageAction.breakevenSet ticket entry tp])) := by
  rw [breakevenStep.eq_def]
  repeat' split
  all_goals (first
    | exact Or.inl rfl
    | exact Or.inr ⟨by assumption, rfl⟩)

theorem partialStep_beTickets (cfg : ManageConfig) (st : ManageState)
    (ticket : ℕ) (isSell : Bool) (bid ask vol : ℚ)
    (siVolumeMin siVolumeStep : Option ℚ) (closeOk : Bool) (risk rr : ℚ) :
    (partialStep cfg st ticket isSell bid ask vol siVolumeMin siVolumeStep
      closeOk risk rr).1.beTickets = st.beTickets := by
  rw [partialStep.eq_def]
  split
  next =>
    dsimp only
    split
    next => split <;> rfl
    next => rfl
  next => rfl

/-- Invariant of the three per-position blocks for arbitrary local values:
the breakeven-applied set only grows, a ticket already in the set receives
no breakeven order, at most one breakeven order is issued, and issuing one
puts the ticket in the set. -/
theorem manageBlocks_breakeven_invariant (cfg : ManageConfig)
    (useTrailing : Bool) (trailingRMult : ℚ) (st : ManageState) (ticket : ℕ)
    (isSell : Bool) (price entry : ℚ) (sl tp : Option ℚ) (risk rr : ℚ)
    (bid ask vol : ℚ) (m₁ m₂ : Option ℚ) (closeOk : Bool) (t : ℕ) :
    st.beTickets ⊆
        (partialStep cfg
          (breakevenStep cfg useTrailing st ticket isSell entry sl tp risk rr).1
          ticket isSell bid ask vol m₁ m₂ closeOk risk rr).1.beTickets ∧
      (t ∈ st.beTickets →
        countBreakeven t
          ((breakevenStep cfg useTrailing st ticket isSell entry sl tp risk rr).2 ++
            (partialStep cfg
              (breakevenStep cfg useTrailing st ticket isSell entry sl tp risk rr).1
              ticket isSell bid ask vol m₁ m₂ closeOk risk rr).2 ++
            trailingActs cfg useTrailing trailingRMult ticket isSell price entry
              sl tp risk) = 0) ∧
      countBreakeven t
          ((breakevenStep cfg useTrailing st ticket isSell entry sl tp risk rr).2 ++
            (partialStep cfg
              (breakevenStep cfg useTrailing st ticket isSell entry sl tp risk rr).1
              ticket isSell bid ask vol m₁ m₂ closeOk risk rr).2 ++
            trailingActs cfg useTrailing trailingRMult ticket isSell price entry
              sl tp risk) ≤ 1 ∧
      (countBreakeven t
          ((breakevenStep cfg useTrailing st ticket isSell entry sl tp risk rr).2 ++
            (partialStep cfg
              (breakevenStep cfg useTrailing st ticket isSell entry sl tp risk rr).1
              ticket isSell bid ask vol m₁ m₂ closeOk risk rr).2 ++
            trailingActs cfg useTrailing trailingRMult ticket isSell price entry
              sl tp risk) = 1 →
        t ∈ (partialStep cfg
          (breakevenStep cfg useTrailing st ticket isSell entry sl tp risk rr).1
          ticket isSell bid ask vol m₁ m₂ closeOk risk rr).1.beTickets) := by
  have hc₂ : countBreakeven t
      (partialStep cfg
        (breakevenStep cfg useTrailing st ticket isSell entry sl tp risk rr).1
        ticket isSell bid ask vol m₁ m₂ closeOk risk rr).2 = 0 := by
    refine countBreakeven_eq_zero fun a ha => ?_
    obtain ⟨v, pr, hv⟩ := mem_partialStep_snd ha
    subst hv
    rfl
  have hc₃ : countBreakeven t
      (trailingActs cfg useTrailing trailingRMult ticket isSell price entry
        sl tp risk) = 0 := by
    refine countBreakeven_eq_zero fun a ha => ?_
    obtain ⟨n, tpq, hv⟩ := mem_trailingActs_snd ha
    subst hv
    rfl
  have hbe := partialStep_beTickets cfg
    (breakevenStep cfg useTrailing st ticket isSell entry sl tp risk rr).1
    ticket isSell bid ask vol m₁ m₂ closeOk risk rr
  rcases breakevenStep_cases cfg useTrailing st ticket isSell entry sl tp risk
      rr with h₁ | ⟨hnot, h₁⟩ <;>
    rw [h₁] at hc₂ hbe ⊢ <;>
    simp only [countBreakeven_append, hc₂, hc₃, Nat.add_zero, hbe]
  · exact ⟨Finset.Subset.refl _, fun _ => rfl, by norm_num [countBreakeven],
      by simp [countBreakeven]⟩
  · refine ⟨Finset.subset_insert _ _, ?_, ?_, ?_⟩
    · intro ht
      have hne : ticket ≠ t := fun he => hnot (he ▸ ht)
      simp [countBreakeven, isBreakevenFor, hne]
    · by_cases he : ticket = t <;> simp [countBreakeven, isBreakevenFor, he]
    · intro hcount
      by_cases he : ticket = t
      · exact he ▸ Finset.mem_insert_self _ _
      · simp [countBreakeven, isBreakevenFor, he] at hcount

/-- Per-position form of the breakeven one-shot invariant. -/
theorem processPosition_breakeven_invariant (cfg : ManageConfig)
    (useTrailing : Bool) (trailingRMult : ℚ) (st : ManageState)
    (p : PositionInput) (t : ℕ) :
    st.beTickets ⊆ (processPosition cfg useTrailing trailingRMult st p).1.beTickets ∧
      (t ∈ st.beTickets →
        countBreakeven t (processPosition cfg useTrailing trailingRMult st p).2 = 0) ∧
      countBreakeven t (processPosition cfg useTrailing trailingRMult st p).2 ≤ 1 ∧
      (countBreakeven t (processPosition cfg useTrailing trailingRMult st p).2 = 1 →
        t ∈ (processPosition cfg useTrailing trailingRMult st p).1.beTickets) := by
  rw [processPosition]
  rcases htick : p.tick with _ | ⟨bid, ask⟩
  · exact ⟨Finset.Subset.refl _, fun _ => rfl, by norm_num [countBreakeven],
      by simp [countBreakeven]⟩
  · exact manageBlocks_breakeven_invariant cfg useTrailing trailingRMult st
      p.ticket p.isSell _ _ _ _ _ _ bid ask p.volume p.siVolumeMin
      p.siVolumeStep p.partialCloseOk t

/-- Whole-cycle form of the breakeven one-shot invariant. -/
theorem manageOpenPositions_breakeven_invariant (cfg : ManageConfig)
    (useTrailing : Bool) (trailingRMult : ℚ) (t : ℕ) :
    ∀ (ps : List PositionInput) (st : ManageState),
    st.beTickets ⊆ (manageOpenPositions cfg useTrailing trailingRMult st ps).1.beTickets ∧
      (t ∈ st.beTickets →
        countBreakeven t (manageOpenPositions cfg useTrailing trailingRMult st ps).2 = 0) ∧
      countBreakeven t (manageOpenPositions cfg useTrailing trailingRMult st ps).2 ≤ 1 ∧
      (countBreakeven t (manageOpenPositions cfg useTrailing trailingRMult st ps).2 = 1 →
        t ∈ (manageOpenPositions cfg useTrailing trailingRMult st ps).1.beTickets)
  | [], st => ⟨Finset.Subset.refl _, fun _ => rfl,
      by simp [manageOpenPositions, countBreakeven],
      by simp [manageOpenPositions, countBreakeven]⟩
  | p :: ps, st => by
    obtain ⟨hsub₁, hzero₁, hle₁, hone₁⟩ :=
      processPosition_breakeven_invariant cfg useTrailing trailingRMult st p t
    obtain ⟨hsub₂, hzero₂, hle₂, hone₂⟩ :=
      manageOpenPositions_breakeven_invariant cfg useTrailing trailingRMult t ps
        (processPosition cfg useTrailing trailingRMult st p).1
    rw [manageOpenPositions]
    dsimp only
    rw [countBreakeven_append]
    refine ⟨hsub₁.trans hsub₂, ?_, ?_, ?_⟩
    · intro ht
      rw [hzero₁ ht, hzero₂ (hsub₁ ht)]
    · rcases Nat.eq_zero_or_pos (countBreakeven t
          (processPosition cfg useTrailing trailingRMult st p).2) with hz | hp
      · rw [hz]
        simpa using hle₂
      · have h1 : countBreakeven t
            (processPosition cfg useTrailing trailingRMult st p).2 = 1 := by
          omega
        rw [h1, hzero₂ (hone₁ h1)]
    · intro hsum
      rcases Nat.eq_zero_or_pos (countBreakeven t
          (processPosition cfg useTrailing trailingRMult st p).2) with hz | hp
      · rw [hz, Nat.zero_add] at hsum
        exact hone₂ hsum
      · have h1 : countBreakeven t
            (processPosition cfg useTrailing trailingRMult st p).2 = 1 := by
          omega
        exact hsub₂ (hone₁ h1)

/-- Whole-run form of the breakeven one-shot invariant. -/
theorem runManage_breakeven_invariant (cfg : ManageConfig)
    (useTrailing : Bool) (trailingRMult : ℚ) (t : ℕ) :
    ∀ (cycles : List (List PositionInput)) (st : ManageState),
    st.beTickets ⊆ (runManage cfg useTrailing trailingRMult st cycles).1.beTickets ∧
      (t ∈ st.beTickets →
        countBreakeven t (runManage cfg useTrailing trailingRMult st cycles).2 = 0) ∧
      countBreakeven t (runManage cfg useTrailing trailingRMult st cycles).2 ≤ 1 ∧
      (countBreakeven t (runManage cfg useTrailing trailingRMult st cycles).2 = 1 →
        t ∈ (runManage cfg useTrailing trailingRMult st cycles).1.beTickets)
  | [], st => ⟨Finset.Subset.refl _, fun _ => rfl,
      by simp [runManage, countBreakeven],
      by simp [runManage, countBreakeven]⟩
  | c :: cs, st => by
    obtain ⟨hsub₁, hzero₁, hle₁, hone₁⟩ :=
      manageOpenPositions_breakeven_invariant cfg useTrailing trailingRMult t c st
    obtain ⟨hsub₂, hzero₂, hle₂, hone₂⟩ :=
      runManage_breakeven_invariant cfg useTrailing trailingRMult t cs
        (manageOpenPositions cfg useTrailing trailingRMult st c).1
    rw [runManage]
    dsimp only
    rw [countBreakeven_append]
    refine ⟨hsub₁.trans hsub₂, ?_, ?_, ?_⟩
    · intro ht
      rw [hzero₁ ht, hzero₂ (hsub₁ ht)]
    · rcases Nat.eq_zero_or_pos (countBreakeven t
          (manageOpenPositions cfg useTrailing trailingRMult st c).2) with hz | hp
      · rw [hz]
        simpa using hle₂
      · have h1 : countBreakeven t
            (manageOpenPositions cfg useTrailing trailingRMult st c).2 = 1 := by
          omega
        rw [h1, hzero₂ (hone₁ h1)]
    · intro hsum
      rcases Nat.eq_zero_or_pos (countBreakeven t
          (manageOpenPositions cfg useTrailing trailingRMult st c).2) with hz | hp
      · rw [hz, Nat.zero_add] at hsum
        exact hone₂ hsum
      · have h1 : countBreakeven t
            (manageOpenPositions cfg useTrailing trailingRMult st c).2 = 1 := by
          omega
        exact hsub₂ (hone₁ h1)

/-- Claim C5: with the daily-loss and consecutive-loss gates not tripping
and a starting equity of at least the guard epsilon, `risk_gates_ok`
returns false exactly when the relative loss
`(equity_start - equity)/equity_start` reaches `MAX_DRAWDOWN_PCT`; in
particular exact equality denies and a strictly smaller loss allows. -/
theorem C5_risk_gates_drawdown_boundary (cfg : GatesConfig)
    (equityStart balance equity : ℚ) (dailyPnl : Option ℚ)
    (consLosses : Option ℕ)
    (hstart : 1/1000000000 ≤ equityStart)
    (hdaily : dailyLossTrip cfg balance dailyPnl = false)
    (hcons : consecutiveLossTrip cfg consLosses = false) :
    riskGatesOk cfg equityStart balance equity dailyPnl consLosses = false ↔
      cfg.maxDrawdownPct ≤ (equityStart - equity) / equityStart := by
  have hmax : max (1/1000000000) equityStart = equityStart := max_eq_right hstart
  rw [riskGatesOk]
  simp only [hmax, hdaily, hcons]
  by_cases h : cfg.maxDrawdownPct ≤ (equityStart - equity) / equityStart <;>
    simp [h]

/-- Witness for `C5_risk_gates_drawdown_boundary`: an 8% loss with an 8%
threshold (boundary case) is denied. -/
theorem C5_risk_gates_witness :
    dailyLossTrip ⟨8/100, 2/100, 2⟩ 100 (some (-1)) = false ∧
      consecutiveLossTrip ⟨8/100, 2/100, 2⟩ (some 1) = false ∧
      (riskGatesOk ⟨8/100, 2/100, 2⟩ 100 100 92 (some (-1)) (some 1) = false ↔
        (8/100 : ℚ) ≤ (100 - 92) / 100) :=
  ⟨by with_unfolding_all decide, by with_unfolding_all decide,
    C5_risk_gates_drawdown_boundary ⟨8/100, 2/100, 2⟩ 100 100 92 (some (-1))
      (some 1) (by norm_num) (by with_unfolding_all decide)
      (by with_unfolding_all decide)⟩

/-- Claim C3: whenever the trailing block of `manage_open_positions` issues
a stop modification for a position (which requires a positive entry-to-stop
risk distance), the new stop is at least as favorable as the current one —
at least the current stop for a buy, at most for a sell — and the change
exceeds the 1e-8 triviality threshold. -/
theorem C3_trailing_never_loosens (cfg : ManageConfig) (useTrailing : Bool)
    (trailingRMult : ℚ) (st : ManageState) (p : PositionInput) (n : ℚ)
    (tpv : Option ℚ)
    (hmem : ManageAction.trailingSet p.ticket n tpv ∈
      (processPosition cfg useTrailing trailingRMult st p).2) :
    (if p.isSell then n ≤ p.slRaw else p.slRaw ≤ n) ∧
      1/100000000 < |n - p.slRaw| := by
  rw [processPosition] at hmem
  rcases htick : p.tick with _ | ⟨bid, ask⟩ <;> rw [htick] at hmem
  · simp at hmem
  simp only [List.mem_append] at hmem
  rcases hmem with (hmem | hmem) | hmem
  · exact absurd (mem_breakevenStep_snd hmem) (by simp)
  · obtain ⟨v, pr, hv⟩ := mem_partialStep_snd hmem
    simp at hv
  · by_cases hraw : p.slRaw = 0
    · simp only [hraw, ne_eq, not_true_eq_false, if_false, ite_false] at hmem
      rw [trailingActs_risk_nonpos (by norm_num)] at hmem
      exact absurd hmem (List.not_mem_nil _)
    · rw [if_pos hraw] at hmem
      exact mem_trailingActs_some hraw hmem

/-- Witness for `C3_trailing_never_loosens`: a long position at entry 1
with stop 0.9 and price 1.5 gets its stop trailed to 1.45, which is above
the old stop and a non-trivial change. -/
theorem C3_trailing_witness :
    (ManageAction.trailingSet 1 (29/20) (some 2) ∈
      (processPosition ⟨true, 1, false, 50, 1, 1/100⟩ true (1/2) ⟨∅, ∅⟩
        ⟨1, false, 1, 9/10, 2, 1, some (3/2, 3/2), none, none, false⟩).2) ∧
      ((if (false : Bool) then (29/20 : ℚ) ≤ 9/10 else (9/10 : ℚ) ≤ 29/20) ∧
        1/100000000 < |(29/20 : ℚ) - 9/10|) :=
  ⟨by with_unfolding_all decide,
    C3_trailing_never_loosens ⟨true, 1, false, 50, 1, 1/100⟩ true (1/2) ⟨∅, ∅⟩
      ⟨1, false, 1, 9/10, 2, 1, some (3/2, 3/2), none, none, false⟩ (29/20)
      (some 2) (by with_unfolding_all decide)⟩

/-- Claim C1: breakeven is one-shot per ticket. Over any run of
`manage_open_positions` cycles, the breakeven-applied set only grows (the
per-ticket flag never returns to false); a ticket already in the set
receives no further breakeven stop modification, regardless of `rr`; at
most one breakeven modification is ever issued for a ticket, and issuing
one records the ticket in the set. -/
theorem C1_breakeven_one_shot (cfg : ManageConfig) (useTrailing : Bool)
    (trailingRMult : ℚ) (cycles : List (List PositionInput))
    (st : ManageState) (t : ℕ) :
    st.beTickets ⊆ (runManage cfg useTrailing trailingRMult st cycles).1.beTickets ∧
      (t ∈ st.beTickets →
        countBreakeven t (runManage cfg useTrailing trailingRMult st cycles).2 = 0) ∧
      countBreakeven t (runManage cfg useTrailing trailingRMult st cycles).2 ≤ 1 ∧
      (countBreakeven t (runManage cfg useTrailing trailingRMult st cycles).2 = 1 →
        t ∈ (runManage cfg useTrailing trailingRMult st cycles).1.beTickets) :=
  runManage_breakeven_invariant cfg useTrailing trailingRMult t cycles st

/-- Witness for `C1_breakeven_one_shot`: ticket 5 already has breakeven
applied; two further cycles with `rr` far above the threshold issue no
breakeven modification for it. -/
theorem C1_breakeven_witness :
    ({5} : Finset ℕ) ⊆
        (runManage ⟨true, 1, false, 50, 1, 1/100⟩ true (1/2) ⟨{5}, ∅⟩
          [[⟨5, false, 1, 9/10, 0, 1, some (3/2, 3/2), none, none, false⟩],
           [⟨5, false, 1, 9/10, 0, 1, some (3/2, 3/2), none, none, false⟩]]).1.beTickets ∧
      (5 ∈ ({5} : Finset ℕ) →
        countBreakeven 5
          (runManage ⟨true, 1, false, 50, 1, 1/100⟩ true (1/2) ⟨{5}, ∅⟩
            [[⟨5, false, 1, 9/10, 0, 1, some (3/2, 3/2), none, none, false⟩],
             [⟨5, false, 1, 9/10, 0, 1, some (3/2, 3/2), none, none, false⟩]]).2 = 0) ∧
      countBreakeven 5
          (runManage ⟨true, 1, false, 50, 1, 1/100⟩ true (1/2) ⟨{5}, ∅⟩
            [[⟨5, false, 1, 9/10, 0, 1, some (3/2, 3/2), none, none, false⟩],
             [⟨5, false, 1, 9/10, 0, 1, some (3/2, 3/2), none, none, false⟩]]).2 ≤ 1 ∧
      (countBreakeven 5
          (runManage ⟨true, 1, false, 50, 1, 1/100⟩ true (1/2) ⟨{5}, ∅⟩
            [[⟨5, false, 1, 9/10, 0, 1, some (3/2, 3/2), none, none, false⟩],
             [⟨5, false, 1, 9/10, 0, 1, some (3/2, 3/2), none, none, false⟩]]).2 = 1 →
        5 ∈ (runManage ⟨true, 1, false, 50, 1, 1/100⟩ true (1/2) ⟨{5}, ∅⟩
          [[⟨5, false, 1, 9/10, 0, 1, some (3/2, 3/2), none, none, false⟩],
           [⟨5, false, 1, 9/10, 0, 1, some (3/2, 3/2), none, none, false⟩]]).1.beTickets) :=
  C1_breakeven_one_shot ⟨true, 1, false, 50, 1, 1/100⟩ true (1/2)
    [[⟨5, false, 1, 9/10, 0, 1, some (3/2, 3/2), none, none, false⟩],
     [⟨5, false, 1, 9/10, 0, 1, some (3/2, 3/2), none, none, false⟩]] ⟨{5}, ∅⟩ 5

theorem tickSymbol_lastSignal (cfg : ExecConfig) (s : String) (st : ExecState) :
    (tickSymbol cfg s st).lastSignal = st.lastSignal := by
  rw [tickSymbol]
  dsimp only
  split <;> rfl

theorem executePlan_lastSignal (cfg : ExecConfig) (env : ExecEnv) (plan : Plan)
    (st : ExecState) :
    (executePlan cfg env plan st).1.lastSignal plan.symbol = true := by
  rw [executePlan]
  dsimp only
  simp

theorem executePlan_blocked (cfg : ExecConfig) (env : ExecEnv) (plan : Plan)
    (st : ExecState) (h : st.lastSignal plan.symbol = true) :
    (executePlan cfg env plan st).2.attempted = false ∧
      (executePlan cfg env plan st).2.ticket = none ∧
      (st.started plan.symbol = true →
        (executePlan cfg env plan st).2.reason = some SkipReason.noRisingEdge) := by
  rw [executePlan]
  dsimp only
  by_cases hst : st.started plan.symbol = true
  · simp [hst, h]
  · simp [hst, h]

theorem cycleSymbol_some_lastSignal (cfg : ExecConfig) (s : String)
    (plan : Plan) (env : ExecEnv) (ms : MainState) (hsym : plan.symbol = s)
    (h : ms.es.lastSignal s = true) :
    (cycleSymbol cfg s (some plan) env ms).1.es.lastSignal s = true := by
  rw [cycleSymbol]
  dsimp only
  split
  · rw [tickSymbol_lastSignal]
    exact h
  · dsimp only
    subst hsym
    exact executePlan_lastSignal cfg env plan (tickSymbol cfg plan.symbol ms.es)

theorem cycleSymbol_none_lastSignal (cfg : ExecConfig) (s : String)
    (env : ExecEnv) (ms : MainState) :
    (cycleSymbol cfg s none env ms).1.es.lastSignal s = false := by
  rw [cycleSymbol]
  dsimp only [clearSignal]
  simp

theorem cycleSymbol_dup {cfg : ExecConfig} {s : String} {p : Plan}
    {env : ExecEnv} {ms : MainState}
    (h : ms.lastPlanSig s = some (planSignature p)) :
    cycleSymbol cfg s (some p) env ms =
      ({ ms with es := tickSymbol cfg s ms.es },
       { executed := false, attempts := 0, outcome := none }) := by
  rw [cycleSymbol]
  dsimp only
  rw [if_pos h]

theorem cycleSymbol_exec {cfg : ExecConfig} {s : String} {p : Plan}
    {env : ExecEnv} {ms : MainState}
    (h : ¬ms.lastPlanSig s = some (planSignature p)) :
    cycleSymbol cfg s (some p) env ms =
      (⟨if ticketTruthy (executePlan cfg env p (tickSymbol cfg s ms.es)).2.ticket then
          Function.update ms.lastPlanSig s (some (planSignature p))
        else ms.lastPlanSig,
        (executePlan cfg env p (tickSymbol cfg s ms.es)).1⟩,
       { executed := true,
         attempts :=
           if (executePlan cfg env p (tickSymbol cfg s ms.es)).2.attempted then 1
           else 0,
         outcome := some (executePlan cfg env p (tickSymbol cfg s ms.es)).2 }) := by
  rw [cycleSymbol]
  dsimp only
  rw [if_neg h]

/-- Claim C10 (counterexample): while the last-signal flag is true but
startup protection is still active, a plan is skipped with reason
`startup_protection`, not `no_rising_edge` as the claim states. -/
theorem C10_rising_edge_counterexample :
    (⟨fun _ => 0, fun _ => false, fun _ => true, fun _ => 0, fun _ => none⟩ :
        ExecState).lastSignal "EURUSD" = true ∧
      (executePlan ⟨3, 30⟩ ⟨false, 100, none⟩
        ⟨"EURUSD", "long", 1, 1, 2, 1/100, "M5", 0, ""⟩
        ⟨fun _ => 0, fun _ => false, fun _ => true, fun _ => 0,
          fun _ => none⟩).2.reason = some SkipReason.startupProtection ∧
      SkipReason.startupProtection ≠ SkipReason.noRisingEdge := by
  refine ⟨rfl, ?_, by decide⟩
  with_unfolding_all rfl

/-- Claim C10 (amended): every `execute_plan` call on a plan leaves the
instrument's last-signal flag true; while the flag is true a subsequent
plan submits no order and is skipped — with reason `no_rising_edge` once
startup protection has passed (otherwise `startup_protection` is
reported); within the trading loop a cycle that produces a plan keeps the
flag true, and only a cycle producing no plan resets it. -/
theorem C10_rising_edge_amended (cfg : ExecConfig) (env : ExecEnv)
    (plan : Plan) (st : ExecState) (ms : MainState) (s : String)
    (hsym : plan.symbol = s) :
    (executePlan cfg env plan st).1.lastSignal plan.symbol = true ∧
      (st.lastSignal plan.symbol = true →
        (executePlan cfg env plan st).2.attempted = false ∧
          (executePlan cfg env plan st).2.ticket = none ∧
          (st.started plan.symbol = true →
            (executePlan cfg env plan st).2.reason =
              some SkipReason.noRisingEdge)) ∧
      (ms.es.lastSignal s = true →
        (cycleSymbol cfg s (some plan) env ms).1.es.lastSignal s = true) ∧
      (cycleSymbol cfg s none env ms).1.es.lastSignal s = false :=
  ⟨executePlan_lastSignal cfg env plan st,
    fun h => executePlan_blocked cfg env plan st h,
    fun h => cycleSymbol_some_lastSignal cfg s plan env ms hsym h,
    cycleSymbol_none_lastSignal cfg s env ms⟩

/-- Witness for `C10_rising_edge_amended` on a concrete warmed-up state
with the flag raised. -/
theorem C10_rising_edge_witness :
    ("EURUSD" : String) = "EURUSD" ∧
      ((executePlan ⟨3, 30⟩ ⟨false, 100, none⟩
          ⟨"EURUSD", "long", 1, 1, 2, 1/100, "M5", 0, ""⟩
          ⟨fun _ => 9, fun _ => true, fun _ => true, fun _ => 0,
            fun _ => none⟩).1.lastSignal "EURUSD" = true ∧
        ((⟨fun _ => 9, fun _ => true, fun _ => true, fun _ => 0,
            fun _ => none⟩ : ExecState).lastSignal "EURUSD" = true →
          (executePlan ⟨3, 30⟩ ⟨false, 100, none⟩
              ⟨"EURUSD", "long", 1, 1, 2, 1/100, "M5", 0, ""⟩
              ⟨fun _ => 9, fun _ => true, fun _ => true, fun _ => 0,
                fun _ => none⟩).2.attempted = false ∧
            (executePlan ⟨3, 30⟩ ⟨false, 100, none⟩
                ⟨"EURUSD", "long", 1, 1, 2, 1/100, "M5", 0, ""⟩
                ⟨fun _ => 9, fun _ => true, fun _ => true, fun _ => 0,
                  fun _ => none⟩).2.ticket = none ∧
            ((⟨fun _ => 9, fun _ => true, fun _ => true, fun _ => 0,
                fun _ => none⟩ : ExecState).started "EURUSD" = true →
              (executePlan ⟨3, 30⟩ ⟨false, 100, none⟩
                  ⟨"EURUSD", "long", 1, 1, 2, 1/100, "M5", 0, ""⟩
                  ⟨fun _ => 9, fun _ => true, fun _ => true, fun _ => 0,
                    fun _ => none⟩).2.reason = some SkipReason.noRisingEdge)) ∧
        ((⟨fun _ => none,
            ⟨fun _ => 9, fun _ => true, fun _ => true, fun _ => 0,
              fun _ => none⟩⟩ : MainState).es.lastSignal "EURUSD" = true →
          (cycleSymbol ⟨3, 30⟩ "EURUSD"
            (some ⟨"EURUSD", "long", 1, 1, 2, 1/100, "M5", 0, ""⟩)
            ⟨false, 100, none⟩
            ⟨fun _ => none,
              ⟨fun _ => 9, fun _ => true, fun _ => true, fun _ => 0,
                fun _ => none⟩⟩).1.es.lastSignal "EURUSD" = true) ∧
        (cycleSymbol ⟨3, 30⟩ "EURUSD" none ⟨false, 100, none⟩
          ⟨fun _ => none,
            ⟨fun _ => 9, fun _ => true, fun _ => true, fun _ => 0,
              fun _ => none⟩⟩).1.es.lastSignal "EURUSD" = false) :=
  ⟨rfl,
    C10_rising_edge_amended ⟨3, 30⟩ ⟨false, 100, none⟩
      ⟨"EURUSD", "long", 1, 1, 2, 1/100, "M5", 0, ""⟩
      ⟨fun _ => 9, fun _ => true, fun _ => true, fun _ => 0, fun _ => none⟩
      ⟨fun _ => none,
        ⟨fun _ => 9, fun _ => true, fun _ => true, fun _ => 0, fun _ => none⟩⟩
      "EURUSD" rfl⟩

/-- Claim C6: debounce. Two consecutive trading-loop cycles that produce
plans with the same normalized signature for an instrument make at most
one execution attempt in total, and a plan whose signature equals the last
acted-on signature for the instrument is skipped without reaching
`execute_plan` at all. -/
theorem C6_debounce (cfg : ExecConfig) (s : String) (p₁ p₂ : Plan)
    (env₁ env₂ : ExecEnv) (ms : MainState)
    (hs₁ : p₁.symbol = s) (hs₂ : p₂.symbol = s)
    (hsig : planSignature p₁ = planSignature p₂) :
    (cycleSymbol cfg s (some p₁) env₁ ms).2.attempts +
        (cycleSymbol cfg s (some p₂) env₂
          (cycleSymbol cfg s (some p₁) env₁ ms).1).2.attempts ≤ 1 ∧
      (ms.lastPlanSig s = some (planSignature p₁) →
        (cycleSymbol cfg s (some p₁) env₁ ms).2.executed = false ∧
          (cycleSymbol cfg s (some p₁) env₁ ms).2.attempts = 0) := by
  refine ⟨?_, fun hdup => by rw [cycleSymbol_dup hdup]; exact ⟨rfl, rfl⟩⟩
  by_cases hdup : ms.lastPlanSig s = some (planSignature p₁)
  · rw [cycleSymbol_dup hdup]
    dsimp only
    have hdup₂ : (MainState.mk ms.lastPlanSig
        (tickSymbol cfg s ms.es)).lastPlanSig s = some (planSignature p₂) :=
      hsig ▸ hdup
    rw [cycleSymbol_dup hdup₂]
    norm_num
  · rw [cycleSymbol_exec hdup]
    dsimp only
    by_cases hfill :
        ticketTruthy (executePlan cfg env₁ p₁ (tickSymbol cfg s ms.es)).2.ticket = true
    · rw [if_pos hfill]
      have hdup₂ : (MainState.mk
          (Function.update ms.lastPlanSig s (some (planSignature p₁)))
          (executePlan cfg env₁ p₁ (tickSymbol cfg s ms.es)).1).lastPlanSig s =
            some (planSignature p₂) := by
        show Function.update ms.lastPlanSig s (some (planSignature p₁)) s =
          some (planSignature p₂)
        rw [Function.update_same, hsig]
      rw [cycleSymbol_dup hdup₂]
      dsimp only
      split <;> norm_num
    · rw [if_neg hfill]
      have hdup₂ : ¬(MainState.mk ms.lastPlanSig
          (executePlan cfg env₁ p₁ (tickSymbol cfg s ms.es)).1).lastPlanSig s =
            some (planSignature p₂) := by
        show ¬ms.lastPlanSig s = some (planSignature p₂)
        rw [← hsig]
        exact hdup
      rw [cycleSymbol_exec hdup₂]
      dsimp only
      have hls : (tickSymbol cfg s
          (executePlan cfg env₁ p₁ (tickSymbol cfg s ms.es)).1).lastSignal
            p₂.symbol = true := by
        rw [tickSymbol_lastSignal, hs₂]
        have h0 := executePlan_lastSignal cfg env₁ p₁ (tickSymbol cfg s ms.es)
        rw [hs₁] at h0
        exact h0
      obtain ⟨hatt, -, -⟩ := executePlan_blocked cfg env₂ p₂
        (tickSymbol cfg s (executePlan cfg env₁ p₁ (tickSymbol cfg s ms.es)).1) hls
      rw [hatt]
      split <;> norm_num

/-- Witness for `C6_debounce`: a fresh instrument state, a fill on the
first plan, and an identical second plan — one attempt in total. -/
theorem C6_debounce_witness :
    (("EURUSD" : String) = "EURUSD") ∧
      ((cycleSymbol ⟨0, 0⟩ "EURUSD"
            (some ⟨"EURUSD", "long", 1, 1, 2, 1/100, "M5", 0, ""⟩)
            ⟨false, 100, some 7⟩
            ⟨fun _ => none,
              ⟨fun _ => 0, fun _ => false, fun _ => false, fun _ => 0,
                fun _ => none⟩⟩).2.attempts +
          (cycleSymbol ⟨0, 0⟩ "EURUSD"
            (some ⟨"EURUSD", "long", 1, 1, 2, 1/100, "M5", 0, ""⟩)
            ⟨false, 200, some 8⟩
            (cycleSymbol ⟨0, 0⟩ "EURUSD"
              (some ⟨"EURUSD", "long", 1, 1, 2, 1/100, "M5", 0, ""⟩)
              ⟨false, 100, some 7⟩
              ⟨fun _ => none,
                ⟨fun _ => 0, fun _ => false, fun _ => false, fun _ => 0,
                  fun _ => none⟩⟩).1).2.attempts ≤ 1 ∧
        ((⟨fun _ => none,
            ⟨fun _ => 0, fun _ => false, fun _ => false, fun _ => 0,
              fun _ => none⟩⟩ : MainState).lastPlanSig "EURUSD" =
            some (planSignature ⟨"EURUSD", "long", 1, 1, 2, 1/100, "M5", 0, ""⟩) →
          (cycleSymbol ⟨0, 0⟩ "EURUSD"
              (some ⟨"EURUSD", "long", 1, 1, 2, 1/100, "M5", 0, ""⟩)
              ⟨false, 100, some 7⟩
              ⟨fun _ => none,
                ⟨fun _ => 0, fun _ => false, fun _ => false, fun _ => 0,
                  fun _ => none⟩⟩).2.executed = false ∧
            (cycleSymbol ⟨0, 0⟩ "EURUSD"
                (some ⟨"EURUSD", "long", 1, 1, 2, 1/100, "M5", 0, ""⟩)
                ⟨false, 100, some 7⟩
                ⟨fun _ => none,
                  ⟨fun _ => 0, fun _ => false, fun _ => false, fun _ => 0,
                    fun _ => none⟩⟩).2.attempts = 0)) :=
  ⟨rfl,
    C6_debounce ⟨0, 0⟩ "EURUSD"
      ⟨"EURUSD", "long", 1, 1, 2, 1/100, "M5", 0, ""⟩
      ⟨"EURUSD", "long", 1, 1, 2, 1/100, "M5", 0, ""⟩
      ⟨false, 100, some 7⟩ ⟨false, 200, some 8⟩
      ⟨fun _ => none,
        ⟨fun _ => 0, fun _ => false, fun _ => false, fun _ => 0, fun _ => none⟩⟩
      rfl rfl rfl⟩

theorem buildOrderRequest_filling {env : TradeEnv} {plan : Plan}
    {v : Option ℚ} {f : Option FillMode} {req : OrderRequest}
    (h : buildOrderRequest env plan v f = some req) : req.filling = f := by
  rw [buildOrderRequest] at h
  rcases htick : env.tick with _ | ⟨bid, ask⟩ <;> rw [htick] at h
  · exact absurd h (by simp)
  · dsimp only at h
    obtain rfl := Option.some.injEq .. ▸ h
    · rfl

theorem isPrefix_cons {α : Type} {x : α} {l L : List α} (h : l <+: L) :
    x :: l <+: x :: L := by
  obtain ⟨t, ht⟩ := h
  exact ⟨t, by rw [List.cons_append, ht]⟩

theorem fallbackLoop_map_filling (env : TradeEnv) (plan : Plan) (volOk : ℚ)
    (broker : List (Option OrderResult)) (t : ℚ × ℚ)
    (htick : env.tick = some t) :
    ∀ (cands : List FillMode) (idx : ℕ) (subs : List OrderRequest),
    ∃ l, l <+: cands.map some ∧
      (fallbackLoop env plan volOk broker cands idx subs).2.map
          OrderRequest.filling =
        subs.map OrderRequest.filling ++ l
  | [], idx, subs => ⟨[], List.nil_prefix, by simp [fallbackLoop]⟩
  | fm :: rest, idx, subs => by
    rw [fallbackLoop]
    rcases hb : buildOrderRequest env plan (some volOk) (some fm)
      with _ | req
    · rw [buildOrderRequest, htick] at hb
      exact absurd hb (by simp)
    · dsimp only
      rcases hr : brokerAt broker idx with _ | r <;> dsimp only
      · obtain ⟨l, hpre, heq⟩ := fallbackLoop_map_filling env plan volOk broker
          t htick rest (idx + 1) (subs ++ [req])
        refine ⟨some fm :: l, isPrefix_cons hpre, ?_⟩
        rw [heq]
        simp [buildOrderRequest_filling hb]
      · by_cases hs : isSuccessRes (some r) = true
        · rw [if_pos hs]
          refine ⟨[some fm], isPrefix_cons List.nil_prefix, ?_⟩
          simp [buildOrderRequest_filling hb]
        · rw [if_neg hs]
          by_cases hu : isUnsupportedFilling r = true
          · rw [if_pos hu]
            obtain ⟨l, hpre, heq⟩ := fallbackLoop_map_filling env plan volOk
              broker t htick rest (idx + 1) (subs ++ [req])
            refine ⟨some fm :: l, isPrefix_cons hpre, ?_⟩
            rw [heq]
            simp [buildOrderRequest_filling hb]
          · rw [if_neg hu]
            refine ⟨[some fm], isPrefix_cons List.nil_prefix, ?_⟩
            simp [buildOrderRequest_filling hb]

theorem fallbackLoop_stop (env : TradeEnv) (plan : Plan) (volOk : ℚ)
    (broker : List (Option OrderResult)) (t : ℚ × ℚ)
    (htick : env.tick = some t) :
    ∀ (cands : List FillMode) (idx : ℕ) (subs : List OrderRequest),
    subs.length = idx →
    (∀ j, j < idx → isSuccessRes (brokerAt broker j) = false) →
    ∀ i, i + 1 < (fallbackLoop env plan volOk broker cands idx subs).2.length →
      isSuccessRes (brokerAt broker i) = false
  | [], idx, subs, hlen, hprev, i, hi => by
    rw [fallbackLoop] at hi
    dsimp only at hi
    exact hprev i (by omega)
  | fm :: rest, idx, subs, hlen, hprev, i, hi => by
    rw [fallbackLoop] at hi
    rcases hb : buildOrderRequest env plan (some volOk) (some fm)
      with _ | req
    · rw [buildOrderRequest, htick] at hb
      exact absurd hb (by simp)
    · rw [hb] at hi
      dsimp only at hi
      rcases hr : brokerAt broker idx with _ | r <;> rw [hr] at hi <;>
        dsimp only at hi
      · exact fallbackLoop_stop env plan volOk broker t htick rest (idx + 1)
          (subs ++ [req]) (by simp [hlen])
          (fun j hj => by
            rcases Nat.lt_succ_iff_lt_or_eq.mp hj with hj2 | rfl
            · exact hprev j hj2
            · rw [hr]
              rfl)
          i hi
      · by_cases hs : isSuccessRes (some r) = true
        · rw [if_pos hs] at hi
          simp only [List.length_append, List.length_singleton] at hi
          exact hprev i (by omega)
        · rw [if_neg hs] at hi
          by_cases hu : isUnsupportedFilling r = true
          · rw [if_pos hu] at hi
            exact fallbackLoop_stop env plan volOk broker t htick rest (idx + 1)
              (subs ++ [req]) (by simp [hlen])
              (fun j hj => by
                rcases Nat.lt_succ_iff_lt_or_eq.mp hj with hj2 | rfl
                · exact hprev j hj2
                · rw [hr]
                  exact Bool.eq_false_iff.mpr hs)
              i hi
          · rw [if_neg hu] at hi
            simp only [List.length_append, List.length_singleton] at hi
            exact hprev i (by omega)

theorem placeTrade_cases (env : TradeEnv) (plan : Plan)
    (broker : List (Option OrderResult)) :
    placeTrade env plan broker = (none, []) ∨
      (∃ req : OrderRequest, req.filling = none ∧
        ((∃ k, placeTrade env plan broker = (some k, [req])) ∨
          placeTrade env plan broker = (none, [req]) ∨
          (isSuccessRes (brokerAt broker 0) = false ∧
            ∃ volOk t, env.tick = some t ∧
              placeTrade env plan broker =
                fallbackLoop env plan volOk broker (fillingCandidates env) 1
                  [req]))) := by
  rw [placeTrade]
  by_cases h1 : (env.notifyOnly || !env.tradeEnabled) = true
  · rw [if_pos h1]
    exact Or.inl rfl
  rw [if_neg h1]
  by_cases h2 : env.fatFingerMaxLots < plan.lots
  · rw [if_pos h2]
    exact Or.inl rfl
  rw [if_neg h2]
  rcases hsi : env.si with _ | si
  · exact Or.inl rfl
  dsimp only
  by_cases h3 : (!si.tradeAllowed) = true
  · rw [if_pos h3]
    exact Or.inl rfl
  rw [if_neg h3]
  by_cases h4 : (roundVolumeToStep plan.lots (orFloat si.volumeMin (1/100))
        (orFloat si.volumeMax (max plan.lots 100)) (orFloat si.volumeStep (1/100)) <
      orFloat si.volumeMin (1/100) ∨
    orFloat si.volumeMax (max plan.lots 100) <
      roundVolumeToStep plan.lots (orFloat si.volumeMin (1/100))
        (orFloat si.volumeMax (max plan.lots 100)) (orFloat si.volumeStep (1/100)))
  · rw [if_pos h4]
    exact Or.inl rfl
  rw [if_neg h4]
  rcases htick : env.tick with _ | ⟨bid, ask⟩
  · have hb : buildOrderRequest env plan
        (some (roundVolumeToStep plan.lots (orFloat si.volumeMin (1/100))
          (orFloat si.volumeMax (max plan.lots 100))
          (orFloat si.volumeStep (1/100)))) none = none := by
      rw [buildOrderRequest, htick]
    rw [hb]
    exact Or.inl rfl
  · rcases hb2 : buildOrderRequest env plan
        (some (roundVolumeToStep plan.lots (orFloat si.volumeMin (1/100))
          (orFloat si.volumeMax (max plan.lots 100))
          (orFloat si.volumeStep (1/100)))) none with _ | req
    · rw [buildOrderRequest, htick] at hb2
      exact absurd hb2 (by simp)
    dsimp only
    refine Or.inr ⟨req, buildOrderRequest_filling hb2, ?_⟩
    rcases hr : brokerAt broker 0 with _ | r
    · exact Or.inr (Or.inr ⟨rfl, _, _, rfl, rfl⟩)
    · dsimp only
      by_cases hs : isSuccessRes (some r) = true
      · rw [if_pos hs]
        exact Or.inl ⟨_, rfl⟩
      · rw [if_neg hs]
        by_cases hu : isUnsupportedFilling r = true
        · rw [if_pos hu]
          exact Or.inr (Or.inr ⟨Bool.eq_false_iff.mpr hs, _, _, rfl, rfl⟩)
        · rw [if_neg hu]
          exact Or.inr (Or.inl rfl)

theorem placeTrade_map_filling (env : TradeEnv) (plan : Plan)
    (broker : List (Option OrderResult)) :
    (placeTrade env plan broker).2.map OrderRequest.filling <+:
      none :: (fillingCandidates env).map some := by
  rcases placeTrade_cases env plan broker with h | ⟨req, hf, h⟩
  · rw [h]
    exact List.nil_prefix
  · rcases h with ⟨k, h⟩ | h | ⟨hs, volOk, t, htick, h⟩ <;> rw [h]
    · simp only [List.map_cons, List.map_nil, hf]
      exact isPrefix_cons List.nil_prefix
    · simp only [List.map_cons, List.map_nil, hf]
      exact isPrefix_cons List.nil_prefix
    · obtain ⟨l, hpre, heq⟩ := fallbackLoop_map_filling env plan volOk broker t
        htick (fillingCandidates env) 1 [req]
      rw [heq]
      simp only [List.map_cons, List.map_nil, hf, List.singleton_append]
      exact isPrefix_cons hpre

theorem placeTrade_stop (env : TradeEnv) (plan : Plan)
    (broker : List (Option OrderResult)) (i : ℕ)
    (hi : i + 1 < (placeTrade env plan broker).2.length) :
    isSuccessRes (brokerAt broker i) = false := by
  rcases placeTrade_cases env plan broker with h | ⟨req, hf, h⟩
  · rw [h] at hi
    exact absurd hi (by simp)
  · rcases h with ⟨k, h⟩ | h | ⟨hs, volOk, t, htick, h⟩ <;> rw [h] at hi
    · exact absurd hi (by simp)
    · exact absurd hi (by simp)
    · refine fallbackLoop_stop env plan volOk broker t htick
        (fillingCandidates env) 1 [req] rfl (fun j hj => ?_) i hi
      interval_cases j
      exact hs

theorem stepDecGo_eq (s2 : ℚ) (k : ℕ) :
    ∀ (fuel n : ℕ), n ≤ k → k < n + fuel →
    (∀ j, j < k → ¬(1 < s2 * 10 ^ (2 * j + 1))) →
    (1 < s2 * 10 ^ (2 * k + 1)) →
    stepDecGo s2 fuel n = k
  | 0, n, hnk, hkfuel, _, _ => by omega
  | fuel + 1, n, hnk, hkfuel, hbelow, hk => by
    rw [stepDecGo]
    by_cases h : 1 < s2 * 10 ^ (2 * n + 1)
    · rw [if_pos h]
      rcases Nat.eq_or_lt_of_le hnk with rfl | hlt
      · rfl
      · exact absurd h (hbelow n hlt)
    · rw [if_neg h]
      have hnk2 : n ≠ k := fun he => h (he ▸ hk)
      exact stepDecGo_eq s2 k fuel (n + 1) (by omega) (by omega) hbelow hk

theorem den_one_div_pow10 (k : ℕ) : ((1 : ℚ) / 10 ^ k).den = 10 ^ k := by
  rw [one_div]
  have h : ((10 : ℚ) ^ k) = ((10 ^ k : ℕ) : ℚ) := by push_cast; ring
  rw [h, Rat.inv_natCast_den_of_pos (by positivity)]

theorem stepDecimals_one_div_pow10 (k : ℕ) :
    stepDecimals ((1 : ℚ) / 10 ^ k) = k := by
  have hmul : ∀ m : ℕ, ((1 : ℚ) / 10 ^ k) * ((1 : ℚ) / 10 ^ k) * 10 ^ m =
      10 ^ m / 10 ^ (2 * k) := by
    intro m
    have h10 : ((10 : ℚ) ^ k) ≠ 0 := by positivity
    field_simp
    ring
  rw [stepDecimals]
  refine stepDecGo_eq _ k _ 0 (Nat.zero_le k) ?_ ?_ ?_
  · rw [den_one_div_pow10]
    have := Nat.lt_pow_self (by norm_num : 1 < 10) k
    omega
  · intro j hj
    rw [hmul]
    rw [not_lt, div_le_one (by positivity)]
    exact pow_le_pow_right₀ (by norm_num) (by omega)
  · rw [hmul]
    rw [lt_div_iff₀ (by positivity), one_mul]
    exact pow_lt_pow_right₀ (by norm_num) (by omega)

/-- Claim C4 (counterexample): with venue constraints `volume_step = 0.03`,
`volume_min = 0.02` and a raw volume that floors to zero, `compute_lots`
clamps up to the venue minimum 0.02, which is not a whole multiple of the
step. -/
theorem C4_compute_lots_counterexample :
    computeLots ⟨false, 1/100, 1/100, 1/200, 5⟩ "EURUSD"
        ⟨none, none, none, some (3/100), some (1/50), some 100⟩ (11/10) 1 0 =
      1/50 ∧
      ¬isStepMultiple (1/50) (3/100) := by
  with_unfolding_all decide

/-- Claim C4 (amended): whenever the venue constraints are decimal-aligned
— the volume step is a power of ten `10^-k`, the venue minimum and the
fat-finger-capped maximum are whole multiples of the step, and the minimum
does not exceed that capped maximum — the volume returned by
`compute_lots` is a whole multiple of the step and lies within
`[volume_min, min(volume_max, FAT_FINGER_MAX_LOTS)]`, for every symbol,
entry, stop and equity. -/
theorem C4_compute_lots_amended (cfg : RiskConfig) (symbol : String)
    (info : SymbolInfoRisk) (entry sl equity : ℚ) (k a b : ℕ)
    (hstep : orFloat info.volumeStep (1/100) = 1 / 10 ^ k)
    (hmin : orFloat info.volumeMin (1/100) = a * (1 / 10 ^ k))
    (hmax : min (orFloat info.volumeMax 100) cfg.fatFingerMaxLots =
      b * (1 / 10 ^ k))
    (hab : a ≤ b) :
    isStepMultiple (computeLots cfg symbol info entry sl equity)
        (orFloat info.volumeStep (1/100)) ∧
      orFloat info.volumeMin (1/100) ≤
        computeLots cfg symbol info entry sl equity ∧
      computeLots cfg symbol info entry sl equity ≤
        min (orFloat info.volumeMax 100) cfg.fatFingerMaxLots := by
  have hs_pos : (0 : ℚ) < 1 / 10 ^ k := by positivity
  have hs_ne : (1 : ℚ) / 10 ^ k ≠ 0 := ne_of_gt hs_pos
  rw [computeLots]
  rw [hstep, hmin, hmax, if_pos hs_pos, if_pos hs_pos,
    stepDecimals_one_div_pow10]
  set L := rawLots cfg symbol info entry sl equity with hL
  have hfloor_nonneg : 0 ≤ ⌊max 0 L / (1 / 10 ^ k)⌋ :=
    Int.floor_nonneg.mpr (by positivity)
  set m : ℕ := (⌊max 0 L / (1 / 10 ^ k)⌋).toNat with hm
  have hfloor : (⌊max 0 L / (1 / 10 ^ k)⌋ : ℚ) = (m : ℚ) := by
    rw [hm]
    exact_mod_cast (Int.toNat_of_nonneg hfloor_nonneg).symm
  rw [hfloor]
  have hminmul : min ((b : ℚ) * (1 / 10 ^ k)) ((m : ℚ) * (1 / 10 ^ k)) =
      ((min b m : ℕ) : ℚ) * (1 / 10 ^ k) := by
    rcases le_total b m with h | h
    · rw [min_eq_left (by
        exact mul_le_mul_of_nonneg_right (by exact_mod_cast h) hs_pos.le),
        min_eq_left h]
    · rw [min_eq_right (by
        exact mul_le_mul_of_nonneg_right (by exact_mod_cast h) hs_pos.le),
        min_eq_right h]
  have hmaxmul : max ((a : ℚ) * (1 / 10 ^ k)) (((min b m : ℕ) : ℚ) * (1 / 10 ^ k)) =
      ((max a (min b m) : ℕ) : ℚ) * (1 / 10 ^ k) := by
    rcases le_total a (min b m) with h | h
    · rw [max_eq_right (by
        exact mul_le_mul_of_nonneg_right (by exact_mod_cast h) hs_pos.le),
        max_eq_right h]
    · rw [max_eq_left (by
        exact mul_le_mul_of_nonneg_right (by exact_mod_cast h) hs_pos.le),
        max_eq_left h]
  rw [hminmul, hmaxmul]
  set c : ℕ := max a (min b m) with hc
  have hround : roundq ((c : ℚ) * (1 / 10 ^ k)) k = (c : ℚ) * (1 / 10 ^ k) := by
    refine roundq_eq_self ⟨(c : ℤ), ?_⟩
    have h10 : ((10 : ℚ) ^ k) ≠ 0 := by positivity
    field_simp
  rw [hround]
  refine ⟨?_, ?_, ?_⟩
  · rw [isStepMultiple, mul_div_assoc, div_self hs_ne, mul_one]
    exact Rat.den_natCast c
  · exact mul_le_mul_of_nonneg_right
      (by exact_mod_cast le_max_left a (min b m)) hs_pos.le
  · refine mul_le_mul_of_nonneg_right ?_ hs_pos.le
    have : c ≤ b := max_le hab (min_le_left _ _)
    exact_mod_cast this

/-- Witness for `C4_compute_lots_amended` at standard venue constraints
(step 0.01, min 0.01, max 100, fat-finger cap 5). -/
theorem C4_compute_lots_witness :
    orFloat (some (1/100 : ℚ)) (1/100) = 1 / 10 ^ 2 ∧
      orFloat (some (1/100 : ℚ)) (1/100) = (1 : ℕ) * (1 / 10 ^ 2) ∧
      min (orFloat (some (100 : ℚ)) 100) (5 : ℚ) = (500 : ℕ) * (1 / 10 ^ 2) ∧
      (1 : ℕ) ≤ 500 ∧
      (isStepMultiple
          (computeLots ⟨false, 1/100, 1/100, 1/200, 5⟩ "EURUSD"
            ⟨none, none, none, some (1/100), some (1/100), some 100⟩
            (11/10) 1 10000)
          (orFloat (some (1/100 : ℚ)) (1/100)) ∧
        orFloat (some (1/100 : ℚ)) (1/100) ≤
          computeLots ⟨false, 1/100, 1/100, 1/200, 5⟩ "EURUSD"
            ⟨none, none, none, some (1/100), some (1/100), some 100⟩
            (11/10) 1 10000 ∧
        computeLots ⟨false, 1/100, 1/100, 1/200, 5⟩ "EURUSD"
            ⟨none, none, none, some (1/100), some (1/100), some 100⟩
            (11/10) 1 10000 ≤
          min (orFloat (some (100 : ℚ)) 100) (5 : ℚ)) :=
  ⟨by with_unfolding_all decide, by with_unfolding_all decide,
    by with_unfolding_all decide, by norm_num,
    C4_compute_lots_amended ⟨false, 1/100, 1/100, 1/200, 5⟩ "EURUSD"
      ⟨none, none, none, some (1/100), some (1/100), some 100⟩ (11/10) 1 10000
      2 1 500 (by with_unfolding_all decide) (by with_unfolding_all decide)
      (by with_unfolding_all decide) (by norm_num)⟩

set_option maxRecDepth 8192 in
/-- Claim C2 (counterexample): when the default filling and the first
alternate are both rejected as unsupported filling (retcode 10030) and the
second alternate succeeds, `place_trade` performs three order submissions,
not two as the claim states (reaching the second alternate requires a
submission with the first alternate in between). -/
theorem C2_place_trade_counterexample :
    (placeTrade c2Env c2Plan
        [some ⟨10030, "", 0, 0⟩, some ⟨10030, "", 0, 0⟩,
          some ⟨0, "", 777, 0⟩]).1 = some 777 ∧
      (placeTrade c2Env c2Plan
        [some ⟨10030, "", 0, 0⟩, some ⟨10030, "", 0, 0⟩,
          some ⟨0, "", 777, 0⟩]).2.length = 3 ∧
      (3 : ℕ) ≠ 2 := by
  with_unfolding_all decide

set_option maxRecDepth 8192 in
/-- Claim C2 (amended): if the default-filling submission is rejected as
unsupported filling, the first alternate is likewise rejected as
unsupported, and the second alternate (FOK) succeeds, then `place_trade`
returns the identifier extracted from that successful attempt and exactly
three submissions are recorded — default, IOC, FOK. In every run the
submissions use the default mode followed by a prefix of the alternate
modes (IOC, FOK, return) in order, so each alternate is tried at most
once, and every submission except possibly the last received a non-success
response, so the retry loop stops at the first success. -/
theorem C2_place_trade_amended :
    ((placeTrade c2Env c2Plan
        [some ⟨10030, "", 0, 0⟩, some ⟨10030, "", 0, 0⟩,
          some ⟨0, "", 777, 0⟩]).1 = some 777 ∧
      (placeTrade c2Env c2Plan
        [some ⟨10030, "", 0, 0⟩, some ⟨10030, "", 0, 0⟩,
          some ⟨0, "", 777, 0⟩]).2.map OrderRequest.filling =
        [none, some FillMode.ioc, some FillMode.fok]) ∧
      (∀ (env : TradeEnv) (plan : Plan) (broker : List (Option OrderResult)),
        (placeTrade env plan broker).2.map OrderRequest.filling <+:
          none :: (fillingCandidates env).map some) ∧
      (∀ (env : TradeEnv) (plan : Plan) (broker : List (Option OrderResult))
        (i : ℕ), i + 1 < (placeTrade env plan broker).2.length →
        isSuccessRes (brokerAt broker i) = false) :=
  ⟨by with_unfolding_all decide, placeTrade_map_filling, placeTrade_stop⟩

set_option maxRecDepth 8192 in
/-- Witness for `C2_place_trade_amended`: the submission-mode prefix and
the stop-at-first-success facts evaluated on the concrete three-response
broker. -/
theorem C2_place_trade_witness :
    ((placeTrade c2Env c2Plan
        [some ⟨10030, "", 0, 0⟩, some ⟨10030, "", 0, 0⟩,
          some ⟨0, "", 777, 0⟩]).2.map OrderRequest.filling <+:
      none :: (fillingCandidates c2Env).map some) ∧
      ((0 : ℕ) + 1 < (placeTrade c2Env c2Plan
          [some ⟨10030, "", 0, 0⟩, some ⟨10030, "", 0, 0⟩,
            some ⟨0, "", 777, 0⟩]).2.length) ∧
      isSuccessRes (brokerAt
        [some ⟨10030, "", 0, 0⟩, some ⟨10030, "", 0, 0⟩,
          some ⟨0, "", 777, 0⟩] 0) = false :=
  ⟨C2_place_trade_amended.2.1 c2Env c2Plan
      [some ⟨10030, "", 0, 0⟩, some ⟨10030, "", 0, 0⟩, some ⟨0, "", 777, 0⟩],
    by with_unfolding_all decide,
    C2_place_trade_amended.2.2 c2Env c2Plan
      [some ⟨10030, "", 0, 0⟩, some ⟨10030, "", 0, 0⟩, some ⟨0, "", 777, 0⟩]
      0 (by with_unfolding_all decide)⟩

/-- Claim C9 (counterexample): `_is_rejection_wick` divides 1.5 by
`max(1.0, body_wick_ratio)`, not by the ratio itself, so for `ratio = 0.5`
a bar whose opposite wick is 2 body lengths is accepted although the
claimed threshold `1.5/ratio = 3` body lengths is not met. -/
theorem C9_rejection_wick_counterexample :
    isRejectionWick [⟨2, 3, 0, 3⟩] "bull" (1/2) = true ∧
      specRejectionWick [⟨2, 3, 0, 3⟩] "bull" (1/2) = false := by
  with_unfolding_all decide

/-- Claim C9 (amended): for every bar series whose latest bar has a
positive high-low range, `_is_rejection_wick` returns true for a direction
exactly when the wick opposite the candle body is at least
`1.5 / max(1, ratio)` times the body size and the same-side wick is at most
one body length. -/
theorem C9_rejection_wick_amended (c : Bar) (df : List Bar) (direction : String)
    (ratio : ℚ) (hlast : df.getLast? = some c) (hfull : 0 < c.hi - c.lo) :
    isRejectionWick df direction ratio = true ↔
      (direction = "bull" →
        min c.op c.cl - c.lo ≥ |c.cl - c.op| * (3/2 / max 1 ratio) ∧
          c.hi - max c.op c.cl ≤ |c.cl - c.op|) ∧
      (direction ≠ "bull" →
        c.hi - max c.op c.cl ≥ |c.cl - c.op| * (3/2 / max 1 ratio) ∧
          min c.op c.cl - c.lo ≤ |c.cl - c.op|) := by
  rw [isRejectionWick, hlast]
  by_cases hd : direction = "bull" <;>
    simp [hd, not_le.mpr hfull, mul_one]

/-- Witness instantiating `C9_rejection_wick_amended` on a concrete bull
rejection bar with ratio 3. -/
theorem C9_rejection_wick_witness :
    ([(⟨2, 3, 0, 3⟩ : Bar)].getLast? = some ⟨2, 3, 0, 3⟩) ∧
      ((0 : ℚ) < 3 - 0) ∧
      (isRejectionWick [⟨2, 3, 0, 3⟩] "bull" 3 = true ↔
        (("bull" : String) = "bull" →
          min (2 : ℚ) 3 - 0 ≥ |(3 : ℚ) - 2| * (3/2 / max 1 3) ∧
            (3 : ℚ) - max 2 3 ≤ |(3 : ℚ) - 2|) ∧
        (("bull" : String) ≠ "bull" →
          (3 : ℚ) - max 2 3 ≥ |(3 : ℚ) - 2| * (3/2 / max 1 3) ∧
            min (2 : ℚ) 3 - 0 ≤ |(3 : ℚ) - 2|)) :=
  ⟨rfl, by norm_num,
    C9_rejection_wick_amended ⟨2, 3, 0, 3⟩ [⟨2, 3, 0, 3⟩] "bull" 3 rfl (by norm_num)⟩


theorem listMean_singleton (a : ℚ) : listMean [a] = a := by
  simp [listMean]

theorem clusterGo_gaps (tol : ℚ) (htol : 0 ≤ tol) :
    ∀ (t : List ℚ) (a : ℚ), sepBy tol (a :: t) = true →
      clusterGo tol [a] t = a :: t := by
  intro t
  induction t with
  | nil =>
    intro a _
    rw [clusterGo, listMean_singleton]
  | cons b rest ih =>
    intro a hsep
    rw [sepBy, Bool.and_eq_true, decide_eq_true_eq] at hsep
    rw [clusterGo, listMean_singleton]
    rw [if_neg (by rw [abs_of_pos (by linarith [hsep.1])]; linarith [hsep.1])]
    rw [ih b hsep.2]

theorem sortedDistinct_eq_self {l : List ℚ} (h : l.Sorted (· < ·)) :
    sortedDistinct l = l := by
  have hnd : l.Nodup := h.imp ne_of_lt
  rw [sortedDistinct]
  exact (List.toFinset_sort (· ≤ ·) hnd).mpr h.le_of_lt

theorem map_roundq_eq_self {l : List ℚ} {p : ℕ}
    (h : ∀ x ∈ l, roundq x p = x) :
    l.map (fun x => roundq x p) = l :=
  (List.map_congr_left h).trans l.map_id

theorem clusterLevels_sorted (levels : List ℚ) (pip mult : ℚ) (maxL : ℕ) :
    (clusterLevels levels pip mult maxL).Sorted (· < ·) := by
  rw [clusterLevels]
  split
  · exact List.sorted_nil
  · split
    · exact List.sorted_nil
    · dsimp only
      split
      · exact Finset.sort_sorted_lt _
      · refine List.Sorted.lt_of_le (List.sorted_insertionSort _ _) ?_
        refine ((List.perm_insertionSort _ _).symm).nodup ?_
        refine ((List.take_sublist _ _).map Prod.fst).nodup ?_
        refine (((List.perm_insertionSort _ _).map Prod.fst).symm).nodup ?_
        rw [List.map_map]
        have : (Prod.fst ∘ fun r : ℚ =>
            (r, (levels.filter (fun v => |v - r| ≤
              max (1/100000000) (pip * mult))).length)) = id := rfl
        rw [this, List.map_id]
        exact Finset.sort_nodup _ _

theorem clusterLevels_length_le (levels : List ℚ) (pip mult : ℚ) (maxL : ℕ) :
    (clusterLevels levels pip mult maxL).length ≤ maxL := by
  rw [clusterLevels]
  split
  · exact Nat.zero_le _
  · split
    · exact Nat.zero_le _
    · dsimp only
      split
      · assumption
      · rw [List.length_insertionSort, List.length_map, List.length_take]
        exact min_le_left _ _

theorem clusterLevels_rounded (levels : List ℚ) (pip mult : ℚ) (maxL : ℕ) :
    ∀ x ∈ clusterLevels levels pip mult maxL,
      roundq x (clusterPrec pip) = x := by
  intro x hx
  rw [clusterLevels] at hx
  split at hx
  · exact absurd hx (List.not_mem_nil _)
  · split at hx
    · exact absurd hx (List.not_mem_nil _)
    · rename_i xs lv rest heq
      dsimp only at hx
      have hmem : ∀ {y : ℚ},
          y ∈ sortedDistinct ((clusterGo (max (1/100000000) (pip * mult))
            [lv] rest).map (fun z => roundq z (clusterPrec pip))) →
          roundq y (clusterPrec pip) = y := by
        intro y hy
        rw [sortedDistinct, Finset.mem_sort, List.mem_toFinset,
          List.mem_map] at hy
        obtain ⟨z, _, hz⟩ := hy
        rw [← hz]
        exact roundq_roundq z _ _ le_rfl
      split at hx
      · exact hmem hx
      · have hx' := (List.perm_insertionSort _ _).mem_iff.mp hx
        rw [List.mem_map] at hx'
        obtain ⟨p, hp, hpx⟩ := hx'
        have hp' := (List.take_sublist _ _).mem hp
        have hp'' := (List.perm_insertionSort _ _).mem_iff.mp hp'
        rw [List.mem_map] at hp''
        obtain ⟨r, hr, hrp⟩ := hp''
        rw [← hpx, ← hrp]
        exact hmem hr

theorem clusterLevels_fixed (l : List ℚ) (pip mult : ℚ) (maxL : ℕ)
    (hsorted : l.Sorted (· < ·)) (hlen : l.length ≤ maxL)
    (hfix : ∀ x ∈ l, roundq x (clusterPrec pip) = x)
    (hgap : sepBy (max (1/100000000) (pip * mult)) l = true) :
    clusterLevels l pip mult maxL = l := by
  match l with
  | [] => rw [clusterLevels, if_pos rfl]
  | a :: t =>
    rw [clusterLevels, if_neg (by simp)]
    have hle : (a :: t).Sorted (· ≤ ·) := hsorted.le_of_lt
    rw [hle.insertionSort_eq]
    dsimp only
    have htol : (0:ℚ) ≤ max (1/100000000) (pip * mult) :=
      le_trans (by norm_num) (le_max_left _ _)
    rw [clusterGo_gaps _ htol t a hgap]
    rw [map_roundq_eq_self hfix, sortedDistinct_eq_self hsorted]
    rw [if_pos hlen]

/-- Claim C7 (counterexample): `_cluster_levels` is not idempotent. With
`pip = 1` and multiplier 8 (tolerance 8), the raw levels 0.00006 and
8.00011 form two clusters whose rounded means 0.0001 and 8.0001 sit exactly
8 apart, so a second clustering pass with the same tolerance merges them
into their mean 4.0001, changing the level set. -/
theorem C7_cluster_levels_counterexample :
    clusterLevels [mkRat 6 100000, mkRat 800011 100000] 1 8 20 =
      [mkRat 1 10000, mkRat 80001 10000] ∧
    clusterLevels (clusterLevels [mkRat 6 100000, mkRat 800011 100000] 1 8 20)
      1 8 20 = [mkRat 40001 10000] ∧
    clusterLevels (clusterLevels [mkRat 6 100000, mkRat 800011 100000] 1 8 20)
      1 8 20 ≠
      clusterLevels [mkRat 6 100000, mkRat 800011 100000] 1 8 20 := by
  have h1 : clusterLevels [mkRat 6 100000, mkRat 800011 100000] 1 8 20 =
      [mkRat 1 10000, mkRat 80001 10000] := by
    with_unfolding_all rfl
  have h2 : clusterLevels [mkRat 1 10000, mkRat 80001 10000] 1 8 20 =
      [mkRat 40001 10000] := by
    with_unfolding_all rfl
  refine ⟨h1, by rw [h1, h2], ?_⟩
  rw [h1, h2]
  intro h
  exact absurd (congrArg List.length h) (by decide)

/-- Claim C7 (amended): `_cluster_levels` is idempotent on every output
whose consecutive levels are separated by strictly more than the tolerance
`max(1e-8, pip * multiplier)`; re-clustering such an output with the same
pip and multiplier returns it unchanged. (Without the separation condition
idempotency fails: rounding the cluster means can bring two clusters back
within tolerance of each other.) -/
theorem C7_cluster_levels_amended (levels : List ℚ) (pip mult : ℚ) (maxL : ℕ)
    (hgap : sepBy (max (1/100000000) (pip * mult))
      (clusterLevels levels pip mult maxL) = true) :
    clusterLevels (clusterLevels levels pip mult maxL) pip mult maxL =
      clusterLevels levels pip mult maxL :=
  clusterLevels_fixed _ pip mult _ (clusterLevels_sorted levels pip mult maxL)
    (clusterLevels_length_le levels pip mult maxL)
    (clusterLevels_rounded levels pip mult maxL) hgap

/-- Witness for `C7_cluster_levels_amended`: the levels 0 and 10 with
`pip = 1` and multiplier 8 cluster to `[0, 10]`, whose gap exceeds the
tolerance 8, and re-clustering leaves the output unchanged. -/
theorem C7_cluster_levels_witness :
    sepBy (max (1/100000000) (1 * 8)) (clusterLevels [0, 10] 1 8 20) = true ∧
    clusterLevels (clusterLevels [0, 10] 1 8 20) 1 8 20 =
      clusterLevels [0, 10] 1 8 20 :=
  ⟨by with_unfolding_all rfl,
   C7_cluster_levels_amended [0, 10] 1 8 20 (by with_unfolding_all rfl)⟩

theorem clusterPrec_le_six (pip : ℚ) : clusterPrec pip ≤ 6 := by
  rw [clusterPrec]
  split <;> norm_num

theorem computeZonesFromTf_sorted (symbol : String) (df : List Bar) :
    (computeZonesFromTf symbol df).Sorted (· < ·) := by
  rw [computeZonesFromTf]
  split
  · exact List.sorted_nil
  · split
    · exact List.sorted_nil
    · dsimp only
      have h := clusterLevels_sorted (List.map (fun i =>
          (List.map Bar.hi df).getD i 0) (localExtrema (List.map Bar.hi df) 3).1 ++
          List.map (fun i => (List.map Bar.lo df).getD i 0)
            (localExtrema (List.map Bar.lo df) 3).2 ++
          (nlargestUnique (List.map Bar.hi df) 12 ++
            nsmallestUnique (List.map Bar.lo df) 12)) (symbolPip symbol) 8 60
      rw [h.le_of_lt.insertionSort_eq]
      exact h

theorem computeZonesFromTf_short (symbol : String) (df : List Bar)
    (h : df.length < 5) : computeZonesFromTf symbol df = [] := by
  rw [computeZonesFromTf]
  by_cases hdf : df = []
  · rw [if_pos hdf]
  · rw [if_neg hdf, if_pos h]

theorem sortedDescInsertionSort (L : List ℚ) (hnd : L.Nodup) :
    (L.insertionSort (fun a b => b ≤ a)).Sorted (· > ·) := by
  haveI : IsTotal ℚ (fun a b : ℚ => b ≤ a) := ⟨fun a b => le_total b a⟩
  haveI : IsTrans ℚ (fun a b : ℚ => b ≤ a) :=
    ⟨fun _ _ _ h1 h2 => le_trans h2 h1⟩
  have hge := List.sorted_insertionSort (fun a b : ℚ => b ≤ a) L
  have hnd' := ((List.perm_insertionSort (fun a b : ℚ => b ≤ a) L).symm).nodup hnd
  exact hge.imp₂ (fun a b h hne => lt_of_le_of_ne h hne.symm) hnd'

theorem topSortedDesc (merged : List ℚ) (cnt : ℚ → ℕ) (keepTop : ℕ)
    (hnd : merged.Nodup) (hfix : ∀ m ∈ merged, roundq m 6 = m) :
    (((((merged.map (fun m => (m, cnt m))).insertionSort
      (fun a b => b.2 < a.2 ∨ (b.2 = a.2 ∧ b.1 ≤ a.1))).take keepTop).map
        (fun p => roundq p.1 6)).insertionSort (fun a b => b ≤ a)).Sorted
      (· > ·) := by
  refine sortedDescInsertionSort _ ?_
  have hmem : ∀ p ∈ ((merged.map (fun m => (m, cnt m))).insertionSort
      (fun a b => b.2 < a.2 ∨ (b.2 = a.2 ∧ b.1 ≤ a.1))).take keepTop,
      p.1 ∈ merged := by
    intro p hp
    have hp' := (List.take_sublist _ _).mem hp
    have hp'' := (List.perm_insertionSort _ _).mem_iff.mp hp'
    rw [List.mem_map] at hp''
    obtain ⟨m, hm, hmp⟩ := hp''
    rw [← hmp]
    exact hm
  have hmapeq : ((((merged.map (fun m => (m, cnt m))).insertionSort
      (fun a b => b.2 < a.2 ∨ (b.2 = a.2 ∧ b.1 ≤ a.1))).take keepTop).map
        (fun p => roundq p.1 6)) =
      (((merged.map (fun m => (m, cnt m))).insertionSort
        (fun a b => b.2 < a.2 ∨ (b.2 = a.2 ∧ b.1 ≤ a.1))).take keepTop).map
          Prod.fst :=
    List.map_congr_left (fun p hp => hfix p.1 (hmem p hp))
  rw [hmapeq]
  refine ((List.take_sublist _ _).map Prod.fst).nodup ?_
  refine (((List.perm_insertionSort _ _).map Prod.fst).symm).nodup ?_
  rw [List.map_map]
  have hid : (Prod.fst ∘ fun m : ℚ => (m, cnt m)) = id := rfl
  rw [hid, List.map_id]
  exact hnd

theorem computeZonesForSymbol_sorted (symbol : String) (dfs : List (List Bar))
    (keepTop : ℕ) :
    (computeZonesForSymbol symbol dfs keepTop).Sorted (· > ·) := by
  rw [computeZonesForSymbol]
  dsimp only
  split
  · exact List.sorted_nil
  · have hnd : (clusterLevels
        (List.map (fun df => computeZonesFromTf symbol df) dfs).flatten
        (symbolPip symbol) 8 (keepTop * 3)).Nodup :=
      (clusterLevels_sorted _ _ _ _).imp ne_of_lt
    have hfix : ∀ m ∈ clusterLevels
        (List.map (fun df => computeZonesFromTf symbol df) dfs).flatten
        (symbolPip symbol) 8 (keepTop * 3), roundq m 6 = m := by
      intro m hm
      have hr := clusterLevels_rounded
        (List.map (fun df => computeZonesFromTf symbol df) dfs).flatten
        (symbolPip symbol) 8 (keepTop * 3) m hm
      calc roundq m 6 = roundq (roundq m (clusterPrec (symbolPip symbol))) 6 := by
            rw [hr]
        _ = roundq m (clusterPrec (symbolPip symbol)) :=
            roundq_roundq m _ 6 (clusterPrec_le_six _)
        _ = m := hr
    exact topSortedDesc _ _ keepTop hnd hfix

theorem computeZonesForSymbol_short (symbol : String) (dfs : List (List Bar))
    (keepTop : ℕ) (h : ∀ df ∈ dfs, df.length < 5) :
    computeZonesForSymbol symbol dfs keepTop = [] := by
  rw [computeZonesForSymbol]
  have h1 : (dfs.map (fun df => computeZonesFromTf symbol df)).flatten = [] := by
    rw [List.flatten_eq_nil_iff]
    intro l hl
    rw [List.mem_map] at hl
    obtain ⟨df, hdf, rfl⟩ := hl
    exact computeZonesFromTf_short _ _ (h df hdf)
  dsimp only
  rw [h1, clusterLevels, if_pos rfl, if_pos rfl]

set_option maxRecDepth 4096 in
/-- Claim C8 (counterexample): the multi-timeframe variant
`compute_zones_for_symbol` does not return an ascending list: on a five-bar
series with levels 1, 5 and 10 it returns `[10, 5, 1]`, sorted descending
(the source sorts the final list with `reverse=True`). -/
theorem C8_zone_output_counterexample :
    computeZonesForSymbol "EURUSD" [c8Df] 12 = [10, 5, 1] ∧
    ¬ (computeZonesForSymbol "EURUSD" [c8Df] 12).Sorted (· < ·) := by
  have h : computeZonesForSymbol "EURUSD" [c8Df] 12 = [10, 5, 1] := by
    with_unfolding_all rfl
  refine ⟨h, ?_⟩
  rw [h]
  decide

/-- Claim C8 (amended): the single-timeframe `compute_zones_from_tf` always
returns a strictly ascending (hence distinct) list of levels, and empty or
short data (fewer than 5 bars) yields the empty list; the multi-timeframe
`compute_zones_for_symbol` always returns a strictly descending (hence
distinct) list, and yields the empty list when every timeframe's data is
short. -/
theorem C8_zone_output_amended :
    (∀ symbol df, (computeZonesFromTf symbol df).Sorted (· < ·)) ∧
    (∀ symbol df, df.length < 5 → computeZonesFromTf symbol df = []) ∧
    (∀ symbol dfs keepTop,
      (computeZonesForSymbol symbol dfs keepTop).Sorted (· > ·)) ∧
    (∀ symbol dfs keepTop, (∀ df ∈ dfs, df.length < 5) →
      computeZonesForSymbol symbol dfs keepTop = []) :=
  ⟨computeZonesFromTf_sorted, computeZonesFromTf_short,
   computeZonesForSymbol_sorted, computeZonesForSymbol_short⟩

set_option maxRecDepth 4096 in
/-- Witness for `C8_zone_output_amended` on a concrete five-bar series and
on a single-bar (short) series. -/
theorem C8_zone_output_witness :
    (computeZonesFromTf "EURUSD" c8Df).Sorted (· < ·) ∧
    computeZonesFromTf "EURUSD" [Bar.mk 0 1 0 1] = [] ∧
    (computeZonesForSymbol "EURUSD" [c8Df] 12).Sorted (· > ·) ∧
    computeZonesForSymbol "EURUSD" [[Bar.mk 0 1 0 1]] 12 = [] :=
  ⟨C8_zone_output_amended.1 "EURUSD" c8Df,
   C8_zone_output_amended.2.1 "EURUSD" [Bar.mk 0 1 0 1] (by decide),
   C8_zone_output_amended.2.2.1 "EURUSD" [c8Df] 12,
   C8_zone_output_amended.2.2.2 "EURUSD" [[Bar.mk 0 1 0 1]] 12 (by
    intro df hdf
    rw [List.mem_singleton] at hdf
    rw [hdf]
    decide)⟩

end TradingBot
